import Mathlib

/-
Verification development for the auto-router route-discovery and
authorization-resolution engine.  The definitions below are a shallow
embedding of the TypeScript source (src/dist/handler.js): strings are
lists of characters, the filesystem is an inductive forest, the dynamic
module loader is a per-file outcome, and the orchestrator's shared
mutable registry is threaded state.
-/

namespace AutoRouter

/-- Strings of the model: lists of characters. -/
abbrev Str := List Char

/-- ASCII word characters, as matched by the regex class \w in JavaScript. -/
def isWordChar (c : Char) : Bool := c.isAlphanum || c == '_'

/-- Uppercase one ASCII letter, as String.prototype.toUpperCase acts on ASCII. -/
def toUpperChar (c : Char) : Char :=
  if 'a' ≤ c ∧ c ≤ 'z' then Char.ofNat (c.toNat - 32) else c

/-- Uppercase a string (ASCII). -/
def toUpperStr (s : Str) : Str := s.map toUpperChar

/-- Lowercase one ASCII letter, as String.prototype.toLowerCase acts on ASCII. -/
def toLowerChar (c : Char) : Char :=
  if 'A' ≤ c ∧ c ≤ 'Z' then Char.ofNat (c.toNat + 32) else c

/-- Lowercase a string (ASCII). -/
def toLowerStr (s : Str) : Str := s.map toLowerChar

/-- Bool-valued test that the first list is a prefix of the second
(String.prototype.startsWith). -/
def isPrefixL : Str → Str → Bool
  | [], _ => true
  | _ :: _, [] => false
  | a :: as, b :: bs => a == b && isPrefixL as bs

/-- Bool-valued suffix test (String.prototype.endsWith). -/
def endsWithL (s suffix : Str) : Bool := isPrefixL suffix.reverse s.reverse

/-- Drop the last n characters (the slice(0, -n) idiom). -/
def dropLastN (s : Str) (n : Nat) : Str := s.take (s.length - n)

/-- Split a string at its first space, mirroring indexOf(' ') plus the two
slices; none when the string has no space. -/
def splitAtFirstSpace : Str → Option (Str × Str)
  | [] => none
  | c :: rest =>
    if c == ' ' then some ([], rest)
    else
      match splitAtFirstSpace rest with
      | none => none
      | some (a, b) => some (c :: a, b)

/-- Worker for collapseSlashes; the flag records whether the previous
emitted character was a slash. -/
def collapseAux : Str → Bool → Str
  | [], _ => []
  | c :: rest, prevSlash =>
    if c == '/' then
      if prevSlash then collapseAux rest true else '/' :: collapseAux rest true
    else c :: collapseAux rest false

/-- Collapse every run of consecutive slashes to a single slash
(the replace of /\/+/g by '/'). -/
def collapseSlashes (s : Str) : Str := collapseAux s false

/-- Worker for replaceParams.  The second argument is none outside a
bracket and some acc after an opening bracket, where acc holds the word
characters read so far in reverse.  This is the global regex replace of
\[(\w+)\] by :$1, realized as a left-to-right scan. -/
def rpAux : Str → Option Str → Str
  | [], none => []
  | [], some acc => '[' :: acc.reverse
  | c :: rest, none =>
    if c == '[' then rpAux rest (some []) else c :: rpAux rest none
  | c :: rest, some acc =>
    if c == ']' then
      match acc with
      | [] => '[' :: ']' :: rpAux rest none
      | _ :: _ => ':' :: (acc.reverse ++ rpAux rest none)
    else if isWordChar c then rpAux rest (some (c :: acc))
    else
      '[' :: (acc.reverse ++
        (if c == '[' then rpAux rest (some []) else c :: rpAux rest none))

/-- Replace every [param] by :param. -/
def replaceParams (s : Str) : Str := rpAux s none

/-- Worker for replaceDashColon; the flag records that a dash has been
read but not yet emitted (it becomes a slash when a colon follows). -/
def rdcAux : Str → Bool → Str
  | [], false => []
  | [], true => ['-']
  | c :: rest, false => if c = '-' then rdcAux rest true else c :: rdcAux rest false
  | c :: rest, true =>
    if c = ':' then '/' :: ':' :: rdcAux rest false
    else if c = '-' then '-' :: rdcAux rest true
    else '-' :: c :: rdcAux rest false

/-- Replace every occurrence of "-:" by "/:" (the parameter-connector pass). -/
def replaceDashColon (s : Str) : Str := rdcAux s false

/-- Worker for replaceColonWordDash.  The second argument is some acc
after a colon, with the word characters read so far in reverse.  This is
the global regex replace of :(\w+)- by :$1/, as a left-to-right scan. -/
def rcwAux : Str → Option Str → Str
  | [], none => []
  | [], some acc => ':' :: acc.reverse
  | c :: rest, none =>
    if c == ':' then rcwAux rest (some []) else c :: rcwAux rest none
  | c :: rest, some acc =>
    if c == '-' then
      match acc with
      | [] => ':' :: '-' :: rcwAux rest none
      | _ :: _ => ':' :: (acc.reverse ++ '/' :: rcwAux rest none)
    else if isWordChar c then rcwAux rest (some (c :: acc))
    else if c == ':' then ':' :: (acc.reverse ++ rcwAux rest (some []))
    else ':' :: (acc.reverse ++ c :: rcwAux rest none)

/-- Replace every :param- by :param/ (the parameter-suffix pass). -/
def replaceColonWordDash (s : Str) : Str := rcwAux s none

/-- The three-pass transformation of a raw route name into path syntax:
[param] to :param, then -: to /:, then :param- to :param/. -/
def transformRouteName (s : Str) : Str :=
  replaceColonWordDash (replaceDashColon (replaceParams s))

/-- The enumerated lowercase HTTP methods recognized in filenames. -/
def methods : List Str :=
  ["get".data, "post".data, "put".data, "delete".data,
   "patch".data, "head".data, "options".data]

/-- HTTP_METHODS_UPPER, used for method-prefix pattern parsing. -/
def httpMethodsUpperL : List Str :=
  ["GET".data, "POST".data, "PUT".data, "DELETE".data,
   "PATCH".data, "HEAD".data, "OPTIONS".data]

/-- Parse the optional leading method of a force pattern: if the pattern
has a space and the text before the first space uppercases to a known
method, the pair is that method and the remainder; otherwise no method
and the whole pattern. -/
def patternMethodSplit (pat : Str) : Option Str × Str :=
  match splitAtFirstSpace pat with
  | none => (none, pat)
  | some (before, after) =>
    if toUpperStr before ∈ httpMethodsUpperL then (some (toUpperStr before), after)
    else (none, pat)

/-- The candidate path forms a pattern is tried against: the full route
path, and, when a nonempty prefix starts the route path, the route path
with the prefix stripped (the root path when stripping leaves nothing). -/
def candidatePaths (routePath pfx : Str) : List Str :=
  if pfx ≠ [] ∧ isPrefixL pfx routePath = true then
    [routePath,
     (let s := routePath.drop pfx.length
      if s = [] then ['/'] else s)]
  else [routePath]

/-- Match the path part of a pattern against the candidate forms: a
wildcard pattern base/* matches candidates that start with base/, and a
plain pattern matches by equality. -/
def matchesPath (pathPattern routePath pfx : Str) : Bool :=
  let isW := endsWithL pathPattern ['/', '*']
  let base := if isW then dropLastN pathPattern 2 else pathPattern
  (candidatePaths routePath pfx).any (fun c =>
    if isW then isPrefixL (base ++ ['/']) c else c == base)

/-- matchesFilter(routePath, routeMethod, pattern, prefix) from the source:
parse an optional method constraint, reject on method mismatch, then match
the path pattern against the candidate forms. -/
def matchesFilter (routePath routeMethod pat pfx : Str) : Bool :=
  let pm := patternMethodSplit pat
  match pm.1 with
  | some mm => if mm ≠ toUpperStr routeMethod then false else matchesPath pm.2 routePath pfx
  | none => matchesPath pm.2 routePath pfx

/-- The two validation failures of validateFileName. -/
inductive VErr where
  | badMethod
  | emptyParam
deriving DecidableEq

/-- Result of validateFileName. -/
inductive VResult where
  | ok (method : Str)
  | fail (e : VErr)
deriving DecidableEq

/-- Strip one recognized extension (.ts or .js) from the end of a
filename, as the anchored regex replace does. -/
def stripExt (s : Str) : Str :=
  if endsWithL s ".ts".data then dropLastN s 3
  else if endsWithL s ".js".data then dropLastN s 3
  else s

/-- The test of the regex /\[\]/: an empty bracket pair occurs somewhere. -/
def hasEmptyBrackets : Str → Bool
  | [] => false
  | '[' :: ']' :: _ => true
  | _ :: rest => hasEmptyBrackets rest

/-- validateFileName from the source: an exact method name is valid with
that method; otherwise the name must start with method-; an empty bracket
pair rejects the name. -/
def validateFileName (fileName : Str) : VResult :=
  let nameNoExt := stripExt fileName
  if nameNoExt ∈ methods then .ok nameNoExt
  else
    match methods.find? (fun m => isPrefixL (m ++ ['-']) nameNoExt) with
    | none => .fail .badMethod
    | some m => if hasEmptyBrackets nameNoExt then .fail .emptyParam else .ok m

/-- Assemble the route path below the prefix: basePath/routeName when the
transformed route name is nonempty, the base path alone otherwise, with
slash runs collapsed. -/
def buildFullPath (basePath routeName : Str) : Str :=
  collapseSlashes
    (if routeName ≠ [] then
       (if basePath ≠ [] then basePath ++ '/' :: routeName else '/' :: routeName)
     else basePath)

/-- Prepend the prefix (collapsing slashes again) when it is nonempty. -/
def applyPrefixPath (pfx fullPath : Str) : Str :=
  if pfx ≠ [] then collapseSlashes (pfx ++ fullPath) else fullPath

/-- The full registered route path of a candidate file: extract the raw
route name after method-, transform it, assemble with base path and
prefix. -/
def routePathOf (pfx basePath nameNoExt m : Str) : Str :=
  let routeName := if nameNoExt = m then ([] : Str) else nameNoExt.drop (m.length + 1)
  applyPrefixPath pfx (buildFullPath basePath (transformRouteName routeName))

/-- The RegisteredRouteKey: METHOD (uppercased) and the route path,
separated by one space. -/
def routeKeyOf (m routePath : Str) : Str := toUpperStr m ++ ' ' :: routePath

end AutoRouter

namespace AutoRouter

/-- Route metadata attached by createHandler; only requiresAuth matters
to the resolver. -/
structure RouteMeta where
  requiresAuth : Option Bool
deriving DecidableEq

/-- The duck-typed shapes a loaded module's default export can take. -/
inductive JSValue where
  | undef
  | nullv
  | boolv (b : Bool)
  | numv (n : Int)
  | strv (s : Str)
  | func
  | obj (hasHandlerFn : Bool) (marked : Bool) (meta : Option RouteMeta)
deriving DecidableEq

/-- JavaScript falsiness of an exported value. -/
def isFalsy : JSValue → Bool
  | .undef => true
  | .nullv => true
  | .boolv b => !b
  | .numv n => n == 0
  | .strv s => s.isEmpty
  | .func => false
  | .obj _ _ _ => false

/-- isRouteConfig from the source: an object whose handler field is a
function and which carries the createHandler mark. -/
def isRouteConfig : JSValue → Bool
  | .obj h mk _ => h && mk
  | _ => false

/-- typeof v === 'function'. -/
def isFunctionV : JSValue → Bool
  | .func => true
  | _ => false

/-- Outcome of resolving one file's export shape. -/
inductive LoadOutcome where
  | silent
  | errFalsy
  | errStrict
  | errNamed
  | errObjNoHandler
  | errUnsupported
  | okRoute (meta : Option RouteMeta) (warned : Bool)
deriving DecidableEq

/-- Export-shape resolution of the import callback, in source order:
undefined and null return silently; any other falsy value errors; strict
mode rejects non-function non-createHandler values; named exports are
rejected; a createHandler object is unwrapped; a plain function is
accepted; a plain object with a handler function is accepted with a
warning (non-strict only); an object without one errors; any other type
is unsupported. -/
def resolveExport (strict : Bool) (d : JSValue) (moduleKeys : List Str) : LoadOutcome :=
  if d = .undef ∨ d = .nullv then .silent
  else if isFalsy d then .errFalsy
  else if strict ∧ isFunctionV d = false ∧ isRouteConfig d = false then .errStrict
  else if (moduleKeys.filter (fun k => k ≠ "default".data)) ≠ [] then .errNamed
  else
    match d with
    | .obj h mk meta =>
      if h && mk then .okRoute meta false
      else if h then .okRoute meta true
      else .errObjNoHandler
    | .func => .okRoute none false
    | _ => .errUnsupported

/-- The requiresAuth carried by optional metadata (routeMeta?.requiresAuth). -/
def metaAuth (rm : Option RouteMeta) : Option Bool := rm.bind (fun m => m.requiresAuth)

/-- The per-route authorization decision together with its diagnostic
records: the conflict (both kinds matched), the pattern overridden by
explicit metadata, and the first matching pattern of each kind. -/
structure AuthDecision where
  requiresAuth : Bool
  conflict : Option (Str × Str × Str)
  overridden : Option (Str × Str × Bool)
  usedPub : Option Str
  usedProt : Option Str
deriving DecidableEq

/-- The find over an optional pattern list (forcePublic?.find, with
optional chaining). -/
def findMatch (patterns : Option (List Str)) (routePath m pfx : Str) : Option Str :=
  match patterns with
  | none => none
  | some l => l.find? (fun p => matchesFilter routePath m p pfx)

/-- The authorization resolver of loadRoutes: explicit metadata always
wins and records the overridden pattern (forceProtected attributed over
forcePublic); otherwise forceProtected beats forcePublic beats the
default; a simultaneous match is recorded as a conflict regardless of
which source decided. -/
def resolveAuth (routePath m pfx : Str) (fp ft : Option (List Str))
    (rm : Option RouteMeta) (dflt : Bool) : AuthDecision :=
  let mPub := findMatch fp routePath m pfx
  let mProt := findMatch ft routePath m pfx
  let conflict :=
    match mPub, mProt with
    | some pp, some tp => some (routePath, pp, tp)
    | _, _ => none
  match metaAuth rm with
  | some b =>
    let ov :=
      match mProt with
      | some tp => some (routePath, tp, true)
      | none =>
        match mPub with
        | some pp => some (routePath, pp, false)
        | none => none
    ⟨b, conflict, ov, mPub, mProt⟩
  | none =>
    let r :=
      match mPub, mProt with
      | some _, some _ => true
      | none, some _ => true
      | some _, none => false
      | none, none => dflt
    ⟨r, conflict, none, mPub, mProt⟩

/-- Logging levels of the logging contract. -/
inductive LogLevel where
  | info
  | warn
  | error
deriving DecidableEq

/-- The diagnostics the engine can emit, with the data each message
carries. -/
inductive Diag where
  | statFailWarn (name : Str)
  | dirScanFailWarn (name : Str)
  | dirNameWarn (name : Str)
  | invalidNameErr (name : Str) (e : VErr)
  | dupRouteErr (name : Str) (key : Str)
  | importFailErr (name : Str)
  | falsyExportErr (name : Str)
  | strictModeErr (name : Str)
  | namedExportsErr (name : Str)
  | objectNoHandlerErr (name : Str)
  | unsupportedExportErr (name : Str)
  | nonStrictWarn (name : Str)
  | registeredInfo (key : Str) (requiresAuth : Bool)
  | rootScanFailErr (dir : Str)
  | conflictWarn (route pubPat protPat : Str)
  | overriddenWarn (route pat : Str) (isProtected : Bool)
  | unusedPatternWarn (isProtected : Bool) (pat : Str)
deriving DecidableEq

/-- The level each diagnostic is logged at in the source. -/
def diagLevel : Diag → LogLevel
  | .statFailWarn _ => .warn
  | .dirScanFailWarn _ => .warn
  | .dirNameWarn _ => .warn
  | .invalidNameErr _ _ => .error
  | .dupRouteErr _ _ => .error
  | .importFailErr _ => .error
  | .falsyExportErr _ => .error
  | .strictModeErr _ => .error
  | .namedExportsErr _ => .error
  | .objectNoHandlerErr _ => .error
  | .unsupportedExportErr _ => .error
  | .nonStrictWarn _ => .warn
  | .registeredInfo _ _ => .info
  | .rootScanFailErr _ => .error
  | .conflictWarn _ _ _ => .warn
  | .overriddenWarn _ _ _ => .warn
  | .unusedPatternWarn _ _ => .warn

/-- One successfully registered route of app.$routes.all. -/
structure RouteInfo where
  method : Str
  path : Str
  requiresAuth : Bool
deriving DecidableEq

/-- The host-instance state shared across invocations: the append-only
registered-route key set and the accumulated route registry. -/
structure AppState where
  registeredRoutes : List Str
  all : List RouteInfo
  publicRoutes : List (Str × Str)
  protectedRoutes : List (Str × Str)
deriving DecidableEq

/-- The freshly initialized host state. -/
def emptyApp : AppState := ⟨[], [], [], []⟩

/-- One fully-resolved job configuration: a directory with one concrete
prefix and the resolved option defaults. -/
structure JobCfg where
  dir : Str
  pfx : Str
  defaultRequiresAuth : Bool
  strict : Bool
  forcePublic : Option (List Str)
  forceProtected : Option (List Str)
deriving DecidableEq

/-- The accumulator of one loadRoutes job: host state plus the per-job
conflict, override, used-pattern and diagnostic records. -/
structure JobAcc where
  state : AppState
  conflicts : List (Str × Str × Str)
  overridden : List (Str × Str × Bool)
  matchedPub : List Str
  matchedProt : List Str
  diags : List Diag
deriving DecidableEq

/-- Fresh per-job accumulator around the given host state. -/
def initAcc (app : AppState) : JobAcc := ⟨app, [], [], [], [], []⟩

/-- Append diagnostics to the accumulator. -/
def addDiags (acc : JobAcc) (ds : List Diag) : JobAcc :=
  { acc with diags := acc.diags ++ ds }

/-- Add to a list acting as a set (Set.prototype.add). -/
def addUnique (x : Str) (l : List Str) : List Str := if x ∈ l then l else l ++ [x]

/-- Record a route key in the shared registered-route set. -/
def withKey (acc : JobAcc) (key : Str) : JobAcc :=
  { acc with state :=
      { acc.state with registeredRoutes := key :: acc.state.registeredRoutes } }

/-- What the module-loading collaborator yields for one file: a rejected
import, or the default export plus the module's key list. -/
inductive ModuleLoad where
  | fail
  | ok (dflt : JSValue) (moduleKeys : List Str)
deriving DecidableEq

/-- The extension filter of the directory walker: .ts but not .d.ts,
or .js. -/
def candidateExt (name : Str) : Bool :=
  (endsWithL name ".ts".data && !endsWithL name ".d.ts".data) || endsWithL name ".js".data

/-- Register one resolved route: compute the authorization decision,
append the route record to the registry and the matching public or
protected list, record the decision's conflict, override and used
patterns, and log the route. -/
def registerRoute (cfg : JobCfg) (name m routePath key : Str)
    (meta : Option RouteMeta) (warned : Bool) (acc1 : JobAcc) : JobAcc :=
  let dec := resolveAuth routePath m cfg.pfx cfg.forcePublic
    cfg.forceProtected meta cfg.defaultRequiresAuth
  let rinfo : RouteInfo := ⟨toUpperStr m, routePath, dec.requiresAuth⟩
  { state :=
      { registeredRoutes := acc1.state.registeredRoutes
        all := acc1.state.all ++ [rinfo]
        publicRoutes :=
          if dec.requiresAuth then acc1.state.publicRoutes
          else acc1.state.publicRoutes ++ [(toUpperStr m, routePath)]
        protectedRoutes :=
          if dec.requiresAuth then acc1.state.protectedRoutes ++ [(toUpperStr m, routePath)]
          else acc1.state.protectedRoutes }
    conflicts := acc1.conflicts ++ dec.conflict.toList
    overridden := acc1.overridden ++ dec.overridden.toList
    matchedPub :=
      match dec.usedPub with
      | some p => addUnique p acc1.matchedPub
      | none => acc1.matchedPub
    matchedProt :=
      match dec.usedProt with
      | some p => addUnique p acc1.matchedProt
      | none => acc1.matchedProt
    diags := acc1.diags ++
      (if warned then [Diag.nonStrictWarn name] else []) ++
      [Diag.registeredInfo key dec.requiresAuth] }

/-- Dispatch on the export-shape outcome: silence, one of the error
diagnostics, or a registration. -/
def handleOutcome (cfg : JobCfg) (name m routePath key : Str)
    (out : LoadOutcome) (acc1 : JobAcc) : JobAcc :=
  match out with
  | .silent => acc1
  | .errFalsy => addDiags acc1 [.falsyExportErr name]
  | .errStrict => addDiags acc1 [.strictModeErr name]
  | .errNamed => addDiags acc1 [.namedExportsErr name]
  | .errObjNoHandler => addDiags acc1 [.objectNoHandlerErr name]
  | .errUnsupported => addDiags acc1 [.unsupportedExportErr name]
  | .okRoute meta warned => registerRoute cfg name m routePath key meta warned acc1

/-- Handle the settled import of one admitted file: a rejected import is
an error diagnostic, a loaded module goes through export-shape
resolution. -/
def handleLoad (cfg : JobCfg) (name m routePath key : Str)
    (load : ModuleLoad) (acc1 : JobAcc) : JobAcc :=
  match load with
  | .fail => addDiags acc1 [.importFailErr name]
  | .ok d mkeys => handleOutcome cfg name m routePath key (resolveExport cfg.strict d mkeys) acc1

/-- The RegisteredRouteKey a candidate file resolves to. -/
def fileKey (cfg : JobCfg) (basePath name m : Str) : Str :=
  routeKeyOf m (routePathOf cfg.pfx basePath (stripExt name) m)

/-- Process one candidate file exactly as scanDir plus the import callback
do: filter by extension, validate the filename, build the route path and
key, skip duplicates with an error, record the key in the shared set
before the load settles, then handle the load. -/
def processFile (cfg : JobCfg) (name : Str) (load : ModuleLoad)
    (basePath : Str) (acc : JobAcc) : JobAcc :=
  if candidateExt name = false then acc
  else
    match validateFileName name with
    | .fail e => addDiags acc [.invalidNameErr name e]
    | .ok m =>
      let routePath := routePathOf cfg.pfx basePath (stripExt name) m
      let key := routeKeyOf m routePath
      if key ∈ acc.state.registeredRoutes then addDiags acc [.dupRouteErr name key]
      else handleLoad cfg name m routePath key load (withKey acc key)

/-- A directory listing: files (with their module-load outcome), entries
whose stat fails, subdirectories, and subdirectories whose own listing
fails.  The children of an unreadable directory are never visited. -/
inductive FForest where
  | nil
  | fileCons (name : Str) (load : ModuleLoad) (rest : FForest)
  | badStatCons (name : Str) (rest : FForest)
  | dirCons (name : Str) (children : FForest) (rest : FForest)
  | badDirCons (name : Str) (children : FForest) (rest : FForest)
deriving DecidableEq

/-- Concatenate two sibling listings. -/
def appF : FForest → FForest → FForest
  | .nil, g => g
  | .fileCons n l r, g => .fileCons n l (appF r g)
  | .badStatCons n r, g => .badStatCons n (appF r g)
  | .dirCons n c r, g => .dirCons n c (appF r g)
  | .badDirCons n c r, g => .badDirCons n c (appF r g)

/-- The base path of a subdirectory (basePath/name, or /name at the root). -/
def childBase (basePath name : Str) : Str :=
  if basePath ≠ [] then basePath ++ '/' :: name else '/' :: name

/-- validateDirPath: a directory segment that lowercases to a method
keyword draws a non-fatal advisory warning. -/
def dirWarnDiags (name : Str) : List Diag :=
  if toLowerStr name ∈ methods then [.dirNameWarn name] else []

/-- scanDir from the source: walk a listing in order; files are
processed, a failed stat is a warning and the entry is skipped, a
subdirectory is scanned recursively (after the directory-name check),
and an unreadable subdirectory is a warning and the subtree is skipped;
siblings always continue. -/
def scanDir (cfg : JobCfg) : FForest → Str → JobAcc → JobAcc
  | .nil, _, acc => acc
  | .fileCons name load rest, bp, acc =>
    scanDir cfg rest bp (processFile cfg name load bp acc)
  | .badStatCons name rest, bp, acc =>
    scanDir cfg rest bp (addDiags acc [.statFailWarn name])
  | .dirCons name children rest, bp, acc =>
    scanDir cfg rest bp
      (scanDir cfg children (childBase bp name) (addDiags acc (dirWarnDiags name)))
  | .badDirCons name _ rest, bp, acc =>
    scanDir cfg rest bp (addDiags acc (dirWarnDiags name ++ [.dirScanFailWarn name]))

/-- The post-scan validation batch: one warning per recorded conflict,
one per recorded override, then one per configured pattern absent from
the matched set, forcePublic before forceProtected. -/
def postScanDiags (cfg : JobCfg) (acc : JobAcc) : List Diag :=
  acc.conflicts.map (fun c => .conflictWarn c.1 c.2.1 c.2.2)
  ++ acc.overridden.map (fun o => .overriddenWarn o.1 o.2.1 o.2.2)
  ++ (match cfg.forcePublic with
      | none => []
      | some l =>
        (l.filter (fun p => decide (p ∉ acc.matchedPub))).map
          (fun p => .unusedPatternWarn false p))
  ++ (match cfg.forceProtected with
      | none => []
      | some l =>
        (l.filter (fun p => decide (p ∉ acc.matchedProt))).map
          (fun p => .unusedPatternWarn true p))

/-- One job: a configuration plus the root listing; none models a root
directory whose listing fails. -/
structure Job where
  cfg : JobCfg
  root : Option FForest
deriving DecidableEq

/-- loadRoutes from the source: an unreadable root aborts only this job
with an error; otherwise the tree is scanned from the root and the
post-scan diagnostics are appended after all loads settle. -/
def loadRoutes (app : AppState) (j : Job) : AppState × List Diag :=
  match j.root with
  | none => (app, [.rootScanFailErr j.cfg.dir])
  | some f =>
    let acc := scanDir j.cfg f [] (initAcc app)
    (acc.state, acc.diags ++ postScanDiags j.cfg acc)

/-- Run jobs strictly sequentially against the shared host state. -/
def runJobs (app : AppState) : List Job → AppState × List Diag
  | [] => (app, [])
  | j :: rest =>
    let r1 := loadRoutes app j
    let r2 := runJobs r1.1 rest
    (r2.1, r1.2 ++ r2.2)

/-- A raw prefix field: a single value (possibly absent) or an array. -/
inductive PrefixSpec where
  | single (s : Option Str)
  | multiple (l : List Str)
deriving DecidableEq

/-- One raw configuration as passed to autoRouter. -/
structure RawConfig where
  dir : Option Str
  pfxSpec : PrefixSpec
  defaultRequiresAuth : Option Bool
  strict : Option Bool
  forcePublic : Option (List Str)
  forceProtected : Option (List Str)
deriving DecidableEq

/-- Expand the prefix field into a list: an array stays, a single value
becomes a singleton, an absent value defaults to /api. -/
def expandPrefixes : PrefixSpec → List Str
  | .multiple l => l
  | .single (some s) => [s]
  | .single none => ["/api".data]

/-- Normalize a prefix: remove one trailing slash except on the bare
root. -/
def normalizePrefix (p : Str) : Str :=
  if p.length > 1 ∧ endsWithL p ['/'] then dropLastN p 1 else p

/-- Resolve the directory option (opt.dir || './controllers'). -/
def resolveDir : Option Str → Str
  | none => "./controllers".data
  | some d => if d = [] then "./controllers".data else d

/-- Expand one raw configuration into one job configuration per prefix,
with defaults resolved as in the source. -/
def expandConfig (rc : RawConfig) : List JobCfg :=
  (expandPrefixes rc.pfxSpec).map (fun p =>
    ⟨resolveDir rc.dir, normalizePrefix p, rc.defaultRequiresAuth.getD false,
     rc.strict.getD true, rc.forcePublic, rc.forceProtected⟩)

/-- Run one raw configuration's expanded jobs against the same root
listing (all expanded jobs scan the same directory). -/
def runConfigOn (rc : RawConfig) (root : Option FForest) (app : AppState) :
    AppState × List Diag :=
  runJobs app ((expandConfig rc).map (fun c => ⟨c, root⟩))

/-- Some pattern of an optional pattern list matches the route. -/
def hasMatch (patterns : Option (List Str)) (routePath m pfx : Str) : Prop :=
  ∃ l, patterns = some l ∧ ∃ p ∈ l, matchesFilter routePath m p pfx = true

/-- The RegisteredRouteKey of a registered route record. -/
def keyOf (r : RouteInfo) : Str := r.method ++ ' ' :: r.path

/-- The uniqueness invariant of the host state: registered routes have
pairwise distinct keys, and every registered route's key is in the
shared key set. -/
def StateInv (s : AppState) : Prop :=
  (s.all.map keyOf).Nodup ∧ ∀ r ∈ s.all, keyOf r ∈ s.registeredRoutes

/-- The first forcePublic pattern (in configured order) matching a
registered route, as selected by find during its registration. -/
def firstPubOf (cfg : JobCfg) (r : RouteInfo) : Option Str :=
  findMatch cfg.forcePublic r.path r.method cfg.pfx

/-- The first forceProtected pattern (in configured order) matching a
registered route. -/
def firstProtOf (cfg : JobCfg) (r : RouteInfo) : Option Str :=
  findMatch cfg.forceProtected r.path r.method cfg.pfx

end AutoRouter

namespace AutoRouter

lemma findMatch_isSome_iff (pats : Option (List Str)) (routePath m pfx : Str) :
    (findMatch pats routePath m pfx).isSome = true ↔ hasMatch pats routePath m pfx := by
  cases pats with
  | none => simp [findMatch, hasMatch]
  | some l => simp [findMatch, hasMatch, List.find?_isSome]

lemma isPrefixL_append_self (p t : Str) : isPrefixL p (p ++ t) = true := by
  induction p with
  | nil => rfl
  | cons c cs ih => simp [isPrefixL, ih]

lemma length_le_of_isPrefixL {p s : Str} (h : isPrefixL p s = true) :
    p.length ≤ s.length := by
  induction p generalizing s with
  | nil => simp
  | cons c cs ih =>
    cases s with
    | nil => simp [isPrefixL] at h
    | cons b bs =>
      simp only [isPrefixL, Bool.and_eq_true] at h
      simpa using ih h.2

lemma isPrefixL_eq_false_of_length {p s : Str} (h : s.length < p.length) :
    isPrefixL p s = false := by
  cases hp : isPrefixL p s with
  | false => rfl
  | true => exact absurd (length_le_of_isPrefixL hp) (by omega)

lemma eq_nil_of_isPrefixL_nil {p : Str} (h : isPrefixL p [] = true) : p = [] := by
  cases p with
  | nil => rfl
  | cons c cs => simp [isPrefixL] at h

lemma take_len_append (a b : Str) : (a ++ b).take a.length = a := by
  induction a with
  | nil => simp
  | cons c cs ih => simp [ih]

/-- C1: final requiresAuth precedence.  Explicit metadata always decides;
otherwise a simultaneous forcePublic and forceProtected match is
protected, a forceProtected match is protected, a sole forcePublic match
is public, and no match falls back to the configured default. -/
theorem c1_requiresAuth_precedence (fp ft : Option (List Str)) (rm : Option RouteMeta)
    (dflt : Bool) (routePath m pfx : Str) :
    (∀ b, metaAuth rm = some b →
      (resolveAuth routePath m pfx fp ft rm dflt).requiresAuth = b) ∧
    (metaAuth rm = none →
      ((hasMatch fp routePath m pfx ∧ hasMatch ft routePath m pfx) →
        (resolveAuth routePath m pfx fp ft rm dflt).requiresAuth = true) ∧
      (hasMatch ft routePath m pfx →
        (resolveAuth routePath m pfx fp ft rm dflt).requiresAuth = true) ∧
      (hasMatch fp routePath m pfx → ¬ hasMatch ft routePath m pfx →
        (resolveAuth routePath m pfx fp ft rm dflt).requiresAuth = false) ∧
      (¬ hasMatch fp routePath m pfx → ¬ hasMatch ft routePath m pfx →
        (resolveAuth routePath m pfx fp ft rm dflt).requiresAuth = dflt)) := by
  constructor
  · intro b hb
    simp [resolveAuth, hb]
  · intro hm
    have hfp := findMatch_isSome_iff fp routePath m pfx
    have hft := findMatch_isSome_iff ft routePath m pfx
    cases hp : findMatch fp routePath m pfx <;>
      cases ht : findMatch ft routePath m pfx <;>
        rw [hp] at hfp <;> rw [ht] at hft <;>
          simp_all [resolveAuth]

/-- Witness for C1 at a concrete configuration: a sole forcePublic match
makes the route public even though the default is protected. -/
theorem c1_requiresAuth_precedence_witness :
    (resolveAuth "/a".data "get".data [] (some ["/a".data]) none none true).requiresAuth
      = false := by
  have h := (c1_requiresAuth_precedence (some ["/a".data]) none none true
    "/a".data "get".data []).2 rfl
  exact h.2.2.1 ⟨["/a".data], rfl, "/a".data, by decide, by decide⟩
    (by rintro ⟨l, h', -⟩; cases h')

lemma patternMethodSplit_snd_of_none {pat : Str}
    (h : (patternMethodSplit pat).1 = none) : (patternMethodSplit pat).2 = pat := by
  cases hs : splitAtFirstSpace pat with
  | none => simp [patternMethodSplit, hs]
  | some p =>
    obtain ⟨b1, a1⟩ := p
    by_cases hm : toUpperStr b1 ∈ httpMethodsUpperL
    · exfalso
      simp [patternMethodSplit, hs, hm] at h
    · simp [patternMethodSplit, hs, hm]

lemma candidatePaths_length {rp pfx : Str} :
    ∀ c ∈ candidatePaths rp pfx, c.length ≤ rp.length ∨ (rp ≠ [] ∧ c.length = 1) := by
  intro c hc
  unfold candidatePaths at hc
  split at hc
  · next hcond =>
    simp only [List.mem_cons, List.not_mem_nil, or_false] at hc
    rcases hc with rfl | rfl
    · exact Or.inl le_rfl
    · have hrp : rp ≠ [] := by
        intro h0
        exact hcond.1 (eq_nil_of_isPrefixL_nil (h0 ▸ hcond.2))
      split
      · exact Or.inr ⟨hrp, rfl⟩
      · exact Or.inl (by simp [Nat.sub_le])
  · simp only [List.mem_singleton] at hc
    subst hc
    exact Or.inl le_rfl

lemma endsWithL_append (base suf : Str) : endsWithL (base ++ suf) suf = true := by
  unfold endsWithL
  rw [List.reverse_append]
  exact isPrefixL_append_self suf.reverse base.reverse

lemma dropLastN_append_two (base : Str) (a b : Char) :
    dropLastN (base ++ [a, b]) 2 = base := by
  unfold dropLastN
  have : (base ++ [a, b]).length - 2 = base.length := by simp
  rw [this]
  exact take_len_append base [a, b]

/-- C2: a wildcard pattern (no method constraint) matches exactly the
candidate path forms that start with its base followed by a slash; the
base path itself never matches, while every extension of the base across
a segment boundary does. -/
theorem c2_wildcard_matching (pat base routePath routeMethod pfx : Str)
    (h1 : (patternMethodSplit pat).1 = none)
    (h2 : pat = base ++ ['/', '*']) :
    (matchesFilter routePath routeMethod pat pfx = true ↔
      ∃ c ∈ candidatePaths routePath pfx, isPrefixL (base ++ ['/']) c = true) ∧
    matchesFilter base routeMethod pat pfx = false ∧
    (∀ rest, matchesFilter (base ++ '/' :: rest) routeMethod pat pfx = true) := by
  have hsnd : (patternMethodSplit pat).2 = pat := patternMethodSplit_snd_of_none h1
  have hW : endsWithL pat ['/', '*'] = true := h2 ▸ endsWithL_append base ['/', '*']
  have hbase : dropLastN pat 2 = base := h2 ▸ dropLastN_append_two base '/' '*'
  have hmf : ∀ rp, matchesFilter rp routeMethod pat pfx =
      (candidatePaths rp pfx).any (fun c => isPrefixL (base ++ ['/']) c) := by
    intro rp
    simp only [matchesFilter, h1, matchesPath, hsnd, hW, hbase]
    simp
  refine ⟨?_, ?_, ?_⟩
  · rw [hmf routePath, List.any_eq_true]
  · rw [hmf base]
    have hnot : ¬ ((candidatePaths base pfx).any
        (fun c => isPrefixL (base ++ ['/']) c) = true) := by
      rw [List.any_eq_true]
      rintro ⟨c, hc, hpref⟩
      have hlen := candidatePaths_length c hc
      have hfalse : isPrefixL (base ++ ['/']) c = false := by
        apply isPrefixL_eq_false_of_length
        rcases hlen with h' | ⟨hne, h1'⟩
        · simp only [List.length_append, List.length_cons, List.length_nil]
          omega
        · have hb : 0 < base.length := List.length_pos.mpr hne
          simp only [List.length_append, List.length_cons, List.length_nil, h1']
          omega
      rw [hfalse] at hpref
      exact Bool.false_ne_true hpref
    exact Bool.eq_false_iff.mpr hnot
  · intro rest
    rw [hmf (base ++ '/' :: rest), List.any_eq_true]
    refine ⟨base ++ '/' :: rest, ?_, ?_⟩
    · unfold candidatePaths
      split <;> simp
    · have he : base ++ '/' :: rest = (base ++ ['/']) ++ rest := by simp
      rw [he]
      exact isPrefixL_append_self _ _

/-- Witness for C2 at the spec's own example: /api/admin does not match
/api/admin/*, while /api/admin/foo does. -/
theorem c2_wildcard_matching_witness :
    matchesFilter "/api/admin".data "get".data "/api/admin/*".data "/api".data = false ∧
    matchesFilter "/api/admin/foo".data "get".data "/api/admin/*".data "/api".data = true := by
  have h := c2_wildcard_matching "/api/admin/*".data "/api/admin".data []
    "get".data "/api".data (by decide) (by decide)
  refine ⟨h.2.1, ?_⟩
  have h3 := h.2.2 "foo".data
  have he : "/api/admin".data ++ '/' :: "foo".data = "/api/admin/foo".data := by decide
  rwa [he] at h3

/-- C4 counterexample: a default export of null is a falsy value other
than undefined, yet the code skips it silently instead of emitting the
falsy-export error diagnostic the claim requires. -/
theorem c4_null_counterexample :
    isFalsy .nullv = true ∧ JSValue.nullv ≠ .undef ∧
    resolveExport true .nullv [] = .silent ∧
    (LoadOutcome.silent : LoadOutcome) ≠ .errFalsy := by
  decide

/-- C4 (amended): undefined and null default exports are skipped
silently, leaving no diagnostic and no registration (only the consumed
key); every other falsy export (false, zero, the empty string) draws the
falsy-export error diagnostic and is skipped without registration. -/
theorem c4_falsy_export_handling (strict : Bool) (mkeys : List Str) :
    resolveExport strict .undef mkeys = .silent ∧
    resolveExport strict .nullv mkeys = .silent ∧
    (∀ v, isFalsy v = true → v ≠ .undef → v ≠ .nullv →
      resolveExport strict v mkeys = .errFalsy) ∧
    (∀ cfg name basePath acc m, candidateExt name = true →
      validateFileName name = .ok m →
      routeKeyOf m (routePathOf cfg.pfx basePath (stripExt name) m)
          ∉ acc.state.registeredRoutes →
      (processFile cfg name (.ok .undef mkeys) basePath acc =
        withKey acc (routeKeyOf m (routePathOf cfg.pfx basePath (stripExt name) m))) ∧
      (∀ v, isFalsy v = true → v ≠ .undef → v ≠ .nullv →
        processFile cfg name (.ok v mkeys) basePath acc =
          addDiags
            (withKey acc (routeKeyOf m (routePathOf cfg.pfx basePath (stripExt name) m)))
            [.falsyExportErr name])) := by
  have hfalsy : ∀ (st : Bool) v, isFalsy v = true → v ≠ JSValue.undef → v ≠ .nullv →
      resolveExport st v mkeys = .errFalsy := by
    intro st v hv hu hn
    have hne : ¬ (v = .undef ∨ v = .nullv) := by
      rintro (rfl | rfl)
      · exact hu rfl
      · exact hn rfl
    simp [resolveExport, hne, hv]
  refine ⟨by simp [resolveExport], by simp [resolveExport], hfalsy strict, ?_⟩
  intro cfg name basePath acc m hext hval hkey
  constructor
  · simp [processFile, hext, hval, hkey, handleLoad, handleOutcome, resolveExport]
  · intro v hv hu hn
    simp [processFile, hext, hval, hkey, handleLoad, handleOutcome,
      hfalsy cfg.strict v hv hu hn]

/-- Witness for C4 (amended) at concrete inputs: an undefined export is
silent, a false export errors, and processing a file whose export is
undefined only consumes the route key. -/
theorem c4_falsy_export_handling_witness :
    resolveExport true .undef [] = .silent ∧
    resolveExport true (.boolv false) [] = .errFalsy ∧
    resolveExport true (.numv 0) [] = .errFalsy ∧
    resolveExport true (.strv []) [] = .errFalsy ∧
    processFile ⟨"./controllers".data, "/api".data, false, true, none, none⟩
        "get.ts".data (.ok .undef []) [] (initAcc emptyApp) =
      withKey (initAcc emptyApp) "GET /api".data := by
  have h := c4_falsy_export_handling true []
  have h4 := (h.2.2.2 ⟨"./controllers".data, "/api".data, false, true, none, none⟩
    "get.ts".data [] (initAcc emptyApp) "get".data (by decide) (by decide)
    (by decide))
  refine ⟨h.1, h.2.2.1 _ (by decide) (by decide) (by decide),
    h.2.2.1 _ (by decide) (by decide) (by decide),
    h.2.2.1 _ (by decide) (by decide) (by decide), ?_⟩
  have h5 := h4.1
  have he : routeKeyOf "get".data
      (routePathOf "/api".data [] (stripExt "get.ts".data) "get".data) = "GET /api".data := by
    decide
  rw [he] at h5
  exact h5

lemma word_ne {c : Char} (h : isWordChar c = true) :
    c ≠ '-' ∧ c ≠ ':' ∧ c ≠ '/' ∧ c ≠ ']' ∧ c ≠ '[' := by
  refine ⟨?_, ?_, ?_, ?_, ?_⟩ <;>
    (intro h0; subst h0; exact absurd h (by decide))

lemma rpAux_scan (a : Str) : ∀ (acc rest : Str), (∀ c ∈ a, isWordChar c = true) →
    acc.reverse ++ a ≠ [] →
    rpAux (a ++ ']' :: rest) (some acc) =
      ':' :: ((acc.reverse ++ a) ++ rpAux rest none) := by
  induction a with
  | nil =>
    intro acc rest _ hne
    cases acc with
    | nil => simp at hne
    | cons x xs => simp [rpAux]
  | cons c a' ih =>
    intro acc rest hw hne
    have hwc : isWordChar c = true := hw c (by simp)
    have hcne : (c == ']') = false := beq_eq_false_iff_ne.mpr (word_ne hwc).2.2.2.1
    have step : rpAux ((c :: a') ++ ']' :: rest) (some acc)
        = rpAux (a' ++ ']' :: rest) (some (c :: acc)) := by
      simp [rpAux, hcne, hwc]
    rw [step, ih (c :: acc) rest (fun x hx => hw x (by simp [hx])) (by simp)]
    simp

lemma replaceParams_pair (a b : Str) (ha : a ≠ []) (hb : b ≠ [])
    (hwa : ∀ c ∈ a, isWordChar c = true) (hwb : ∀ c ∈ b, isWordChar c = true) :
    replaceParams ('[' :: a ++ ']' :: '-' :: '[' :: b ++ [']']) =
      ':' :: a ++ '-' :: ':' :: b := by
  unfold replaceParams
  have h1 : rpAux ('[' :: a ++ ']' :: '-' :: '[' :: b ++ [']']) none
      = rpAux (a ++ ']' :: ('-' :: '[' :: b ++ [']'])) (some []) := by
    simp [rpAux]
  rw [h1, rpAux_scan a [] _ hwa (by simp [ha])]
  have h3 : rpAux ('-' :: '[' :: b ++ [']']) none
      = '-' :: rpAux ('[' :: (b ++ [']'])) none := by
    simp [rpAux]
  have h4 : rpAux ('[' :: (b ++ [']'])) none = rpAux (b ++ ']' :: []) (some []) := by
    simp [rpAux]
  rw [h3, h4, rpAux_scan b [] [] hwb (by simp [hb])]
  simp [rpAux]

lemma rdcAux_no_dash (l : Str) (h : ∀ c ∈ l, c ≠ '-') (r : Str) :
    rdcAux (l ++ r) false = l ++ rdcAux r false := by
  induction l with
  | nil => rfl
  | cons c ls ih =>
    have hc : c ≠ '-' := h c (by simp)
    have step : rdcAux ((c :: ls) ++ r) false = c :: rdcAux (ls ++ r) false := by
      simp [rdcAux, hc]
    rw [step, ih (fun x hx => h x (by simp [hx]))]
    simp

lemma rdc_step (rest : Str) :
    rdcAux ('-' :: ':' :: rest) false = '/' :: ':' :: rdcAux rest false := by
  simp [rdcAux]

lemma rcwAux_words (a : Str) : ∀ (acc rest : Str), (∀ c ∈ a, isWordChar c = true) →
    rcwAux (a ++ rest) (some acc) = rcwAux rest (some (a.reverse ++ acc)) := by
  induction a with
  | nil => intro acc rest _; simp
  | cons c a' ih =>
    intro acc rest hw
    have hwc : isWordChar c = true := hw c (by simp)
    have hcd : (c == '-') = false := beq_eq_false_iff_ne.mpr (word_ne hwc).1
    have step : rcwAux ((c :: a') ++ rest) (some acc)
        = rcwAux (a' ++ rest) (some (c :: acc)) := by
      simp [rcwAux, hcd, hwc]
    rw [step, ih (c :: acc) rest (fun x hx => hw x (by simp [hx]))]
    simp

lemma transformRouteName_two_params (a b : Str) (ha : a ≠ []) (hb : b ≠ [])
    (hwa : ∀ c ∈ a, isWordChar c = true) (hwb : ∀ c ∈ b, isWordChar c = true) :
    transformRouteName ('[' :: a ++ ']' :: '-' :: '[' :: b ++ [']']) =
      ':' :: a ++ '/' :: ':' :: b := by
  unfold transformRouteName
  rw [replaceParams_pair a b ha hb hwa hwb]
  have hnd : ∀ c ∈ ':' :: a, c ≠ '-' := by
    intro c hc
    rcases List.mem_cons.mp hc with rfl | hc'
    · decide
    · exact (word_ne (hwa c hc')).1
  have hbnd : ∀ c ∈ b, c ≠ '-' := fun c hc => (word_ne (hwb c hc)).1
  have hbid : rdcAux b false = b := by
    have h' := rdcAux_no_dash b hbnd []
    simpa [rdcAux] using h'
  have h2 : replaceDashColon (':' :: a ++ '-' :: ':' :: b)
      = ':' :: a ++ '/' :: ':' :: b := by
    unfold replaceDashColon
    have hsh : (':' :: a) ++ '-' :: ':' :: b = (':' :: a) ++ ('-' :: ':' :: b) := rfl
    rw [hsh, rdcAux_no_dash (':' :: a) hnd, rdc_step, hbid]
  rw [h2]
  unfold replaceColonWordDash
  have s1 : rcwAux ((':' :: a) ++ '/' :: ':' :: b) none
      = rcwAux (a ++ '/' :: ':' :: b) (some []) := rfl
  rw [s1, rcwAux_words a [] _ hwa]
  have s3 : rcwAux (':' :: b) none = rcwAux b (some []) := rfl
  have s4 : rcwAux b (some []) = ':' :: b := by
    have h' := rcwAux_words b [] [] hwb
    rw [List.append_nil] at h'
    rw [h']
    simp [rcwAux]
  have hw1 : isWordChar '/' = false := by decide
  have hw2 : ('/' == '-') = false := by decide
  have hw3 : ('/' == ':') = false := by decide
  have s2 : rcwAux ('/' :: ':' :: b) (some (a.reverse ++ []))
      = ':' :: ((a.reverse ++ []).reverse ++ '/' :: rcwAux (':' :: b) none) := by
    simp [rcwAux, hw1, hw2, hw3]
  rw [s2, s3, s4]
  simp

/-- C5: the file get-[userId]-[postId].ts at the root of a job with
prefix /api registers GET /api/:userId/:postId, and in general two
bracketed parameter tokens joined directly by a dash produce two
separate path segments :a/:b. -/
theorem c5_two_param_segments :
    ((processFile ⟨"./controllers".data, "/api".data, false, true, none, none⟩
        "get-[userId]-[postId].ts".data (.ok .func []) []
        (initAcc emptyApp)).state.all =
      [⟨"GET".data, "/api/:userId/:postId".data, false⟩] ∧
     (processFile ⟨"./controllers".data, "/api".data, false, true, none, none⟩
        "get-[userId]-[postId].ts".data (.ok .func []) []
        (initAcc emptyApp)).state.registeredRoutes =
      ["GET /api/:userId/:postId".data]) ∧
    (∀ a b : Str, a ≠ [] → b ≠ [] → (∀ c ∈ a, isWordChar c = true) →
      (∀ c ∈ b, isWordChar c = true) →
      transformRouteName ('[' :: a ++ ']' :: '-' :: '[' :: b ++ [']']) =
        ':' :: a ++ '/' :: ':' :: b) :=
  ⟨by decide, transformRouteName_two_params⟩

/-- Witness for C5's general part at the concrete parameter names of the
scenario. -/
theorem c5_two_param_segments_witness :
    transformRouteName "[userId]-[postId]".data = ":userId/:postId".data := by
  have h := c5_two_param_segments.2 "userId".data "postId".data
    (by decide) (by decide) (by decide) (by decide)
  have he : '[' :: "userId".data ++ ']' :: '-' :: '[' :: "postId".data ++ [']']
      = "[userId]-[postId]".data := by decide
  have he2 : ':' :: "userId".data ++ '/' :: ':' :: "postId".data
      = ":userId/:postId".data := by decide
  rw [he, he2] at h
  exact h

lemma stateInv_withKey {acc : JobAcc} (k : Str) (h : StateInv acc.state) :
    StateInv (withKey acc k).state :=
  ⟨h.1, fun r hr => List.mem_cons_of_mem _ (h.2 r hr)⟩

lemma registerRoute_state_all (cfg : JobCfg) (name m routePath key : Str)
    (meta : Option RouteMeta) (warned : Bool) (acc1 : JobAcc) :
    (registerRoute cfg name m routePath key meta warned acc1).state.all
      = acc1.state.all ++ [⟨toUpperStr m, routePath,
          (resolveAuth routePath m cfg.pfx cfg.forcePublic cfg.forceProtected meta
            cfg.defaultRequiresAuth).requiresAuth⟩] := rfl

lemma registerRoute_state_regs (cfg : JobCfg) (name m routePath key : Str)
    (meta : Option RouteMeta) (warned : Bool) (acc1 : JobAcc) :
    (registerRoute cfg name m routePath key meta warned acc1).state.registeredRoutes
      = acc1.state.registeredRoutes := rfl

lemma registerRoute_inv (cfg : JobCfg) (name m routePath key : Str)
    (meta : Option RouteMeta) (warned : Bool) (acc1 : JobAcc)
    (h : StateInv acc1.state)
    (hmem : routeKeyOf m routePath ∈ acc1.state.registeredRoutes)
    (hnotin : routeKeyOf m routePath ∉ acc1.state.all.map keyOf) :
    StateInv (registerRoute cfg name m routePath key meta warned acc1).state := by
  constructor
  · rw [registerRoute_state_all, List.map_append]
    refine List.Nodup.append h.1 (by simp) ?_
    intro x hx hx2
    simp only [List.map_cons, List.map_nil, List.mem_singleton] at hx2
    have hxeq : x = routeKeyOf m routePath := hx2
    exact hnotin (hxeq ▸ hx)
  · intro r hr
    rw [registerRoute_state_all] at hr
    rw [registerRoute_state_regs]
    rcases List.mem_append.mp hr with hold | hnew
    · exact h.2 r hold
    · simp only [List.mem_singleton] at hnew
      subst hnew
      exact hmem

lemma handleLoad_state_regs (cfg : JobCfg) (name m routePath key : Str)
    (load : ModuleLoad) (acc1 : JobAcc) :
    (handleLoad cfg name m routePath key load acc1).state.registeredRoutes
      = acc1.state.registeredRoutes := by
  cases load with
  | fail => rfl
  | ok d mkeys =>
    show (handleOutcome cfg name m routePath key (resolveExport cfg.strict d mkeys)
      acc1).state.registeredRoutes = acc1.state.registeredRoutes
    cases resolveExport cfg.strict d mkeys <;> rfl

lemma handleLoad_inv (cfg : JobCfg) (name m routePath key : Str)
    (load : ModuleLoad) (acc1 : JobAcc) (h : StateInv acc1.state)
    (hmem : routeKeyOf m routePath ∈ acc1.state.registeredRoutes)
    (hnotin : routeKeyOf m routePath ∉ acc1.state.all.map keyOf) :
    StateInv (handleLoad cfg name m routePath key load acc1).state := by
  cases load with
  | fail => exact h
  | ok d mkeys =>
    show StateInv (handleOutcome cfg name m routePath key
      (resolveExport cfg.strict d mkeys) acc1).state
    cases resolveExport cfg.strict d mkeys with
    | okRoute meta warned => exact registerRoute_inv cfg name m routePath key meta warned acc1 h hmem hnotin
    | silent => exact h
    | errFalsy => exact h
    | errStrict => exact h
    | errNamed => exact h
    | errObjNoHandler => exact h
    | errUnsupported => exact h

lemma processFile_inv (cfg : JobCfg) (name : Str) (load : ModuleLoad) (bp : Str)
    (acc : JobAcc) (h : StateInv acc.state) :
    StateInv (processFile cfg name load bp acc).state := by
  simp only [processFile]
  split
  · exact h
  · split
    · exact h
    · next m hval =>
      split
      · exact h
      · next hkey =>
        refine handleLoad_inv cfg name m _ _ load _ (stateInv_withKey _ h) ?_ ?_
        · simp [withKey]
        · intro hin
          simp only [withKey] at hin
          obtain ⟨r, hr, hkr⟩ := List.mem_map.mp hin
          exact hkey (hkr ▸ h.2 r hr)

lemma scanDir_inv (cfg : JobCfg) (f : FForest) : ∀ (bp : Str) (acc : JobAcc),
    StateInv acc.state → StateInv (scanDir cfg f bp acc).state := by
  induction f with
  | nil => intro bp acc h; exact h
  | fileCons name load rest ih =>
    intro bp acc h
    exact ih bp _ (processFile_inv cfg name load bp acc h)
  | badStatCons name rest ih => intro bp acc h; exact ih bp _ h
  | dirCons name children rest ihc ihr =>
    intro bp acc h
    exact ihr bp _ (ihc _ _ h)
  | badDirCons name children rest ihc ihr => intro bp acc h; exact ihr bp _ h

lemma loadRoutes_inv (app : AppState) (j : Job) (h : StateInv app) :
    StateInv (loadRoutes app j).1 := by
  obtain ⟨cfg, root⟩ := j
  cases root with
  | none => exact h
  | some f => exact scanDir_inv cfg f [] (initAcc app) h

lemma runJobs_inv (jobs : List Job) : ∀ (app : AppState), StateInv app →
    StateInv (runJobs app jobs).1 := by
  induction jobs with
  | nil => intro app h; exact h
  | cons j rest ih =>
    intro app h
    exact ih _ (loadRoutes_inv app j h)

lemma processFile_dup (cfg : JobCfg) (name : Str) (load : ModuleLoad) (bp : Str)
    (acc : JobAcc) (m : Str) (hext : candidateExt name = true)
    (hval : validateFileName name = .ok m)
    (hdup : fileKey cfg bp name m ∈ acc.state.registeredRoutes) :
    processFile cfg name load bp acc =
      addDiags acc [.dupRouteErr name (fileKey cfg bp name m)] := by
  simp only [fileKey] at hdup
  simp [processFile, hext, hval, hdup, fileKey]

lemma withKey_regs_mono (acc : JobAcc) (k : Str) :
    acc.state.registeredRoutes ⊆ (withKey acc k).state.registeredRoutes := by
  intro x hx
  exact List.mem_cons_of_mem _ hx

lemma processFile_regs_mono (cfg : JobCfg) (name : Str) (load : ModuleLoad)
    (bp : Str) (acc : JobAcc) :
    acc.state.registeredRoutes ⊆ (processFile cfg name load bp acc).state.registeredRoutes := by
  simp only [processFile]
  split
  · exact fun x hx => hx
  · split
    · exact fun x hx => hx
    · next m hval =>
      split
      · exact fun x hx => hx
      · rw [handleLoad_state_regs]
        exact withKey_regs_mono acc _

lemma scanDir_regs_mono (cfg : JobCfg) (f : FForest) : ∀ (bp : Str) (acc : JobAcc),
    acc.state.registeredRoutes ⊆ (scanDir cfg f bp acc).state.registeredRoutes := by
  induction f with
  | nil => intro bp acc; exact fun x hx => hx
  | fileCons name load rest ih =>
    intro bp acc
    exact fun x hx => ih bp _ (processFile_regs_mono cfg name load bp acc hx)
  | badStatCons name rest ih => intro bp acc; exact fun x hx => ih bp _ hx
  | dirCons name children rest ihc ihr =>
    intro bp acc
    exact fun x hx => ihr bp _ (ihc _ _ hx)
  | badDirCons name children rest ihc ihr => intro bp acc; exact fun x hx => ihr bp _ hx

lemma runJobs_regs_mono (jobs : List Job) : ∀ (app : AppState),
    app.registeredRoutes ⊆ (runJobs app jobs).1.registeredRoutes := by
  induction jobs with
  | nil => intro app; exact fun x hx => hx
  | cons j rest ih =>
    intro app
    intro x hx
    apply ih (loadRoutes app j).1
    obtain ⟨cfg, root⟩ := j
    cases root with
    | none => exact hx
    | some f => exact scanDir_regs_mono cfg f [] (initAcc app) hx

/-- C3: across any number of invocations against the same host state,
successfully registered routes have pairwise distinct keys; a candidate
file whose key is already in the shared set is skipped with a
duplicate-route error diagnostic, the rest of the listing continues to
be scanned, and the state (hence the first registration) is untouched. -/
theorem c3_duplicate_keys_rejected (jobs : List Job) (app : AppState)
    (h : StateInv app) :
    ((runJobs app jobs).1.all.map keyOf).Nodup ∧
    (∀ cfg name load bp acc rest m, candidateExt name = true →
      validateFileName name = .ok m →
      fileKey cfg bp name m ∈ acc.state.registeredRoutes →
      scanDir cfg (.fileCons name load rest) bp acc =
        scanDir cfg rest bp (addDiags acc [.dupRouteErr name (fileKey cfg bp name m)]) ∧
      diagLevel (.dupRouteErr name (fileKey cfg bp name m)) = .error) := by
  constructor
  · exact (runJobs_inv jobs app h).1
  · intro cfg name load bp acc rest m hext hval hdup
    constructor
    · show scanDir cfg rest bp (processFile cfg name load bp acc) = _
      rw [processFile_dup cfg name load bp acc m hext hval hdup]
    · rfl

/-- Witness for C3: a job whose listing contains the same route file
twice rejects the second occurrence, and the scan-step equation holds at
a concrete duplicate. -/
theorem c3_duplicate_keys_rejected_witness :
    ((runJobs emptyApp
        [⟨⟨"./c".data, [], false, true, none, none⟩,
          some (.fileCons "get-a.ts".data (.ok .func [])
            (.fileCons "get-a.js".data (.ok .func []) .nil))⟩]).1.all.map keyOf).Nodup ∧
    scanDir ⟨"./c".data, [], false, true, none, none⟩
        (.fileCons "get-a.ts".data (.ok .func []) .nil) []
        (withKey (initAcc emptyApp) "GET /a".data) =
      scanDir ⟨"./c".data, [], false, true, none, none⟩ .nil []
        (addDiags (withKey (initAcc emptyApp) "GET /a".data)
          [.dupRouteErr "get-a.ts".data "GET /a".data]) := by
  have h := c3_duplicate_keys_rejected
    [⟨⟨"./c".data, [], false, true, none, none⟩,
      some (.fileCons "get-a.ts".data (.ok .func [])
        (.fileCons "get-a.js".data (.ok .func []) .nil))⟩]
    emptyApp (by constructor <;> simp [emptyApp])
  refine ⟨h.1, ?_⟩
  have h2 := (h.2 ⟨"./c".data, [], false, true, none, none⟩ "get-a.ts".data
    (.ok .func []) [] (withKey (initAcc emptyApp) "GET /a".data) .nil "get".data
    (by decide) (by decide) (by decide)).1
  have he : fileKey ⟨"./c".data, [], false, true, none, none⟩ [] "get-a.ts".data "get".data
      = "GET /a".data := by decide
  rw [he] at h2
  exact h2

/-- C10: a fresh key is recorded in the shared set before the load
settles, so a file whose import fails, or whose export shape is
rejected, still consumes its key while registering nothing; the key then
persists through any further scanning and any further jobs, and any
later candidate file resolving to the same key is rejected as a
duplicate without registration. -/
theorem c10_failed_load_consumes_key (cfg : JobCfg) (name bp : Str) (acc : JobAcc)
    (m : Str) (hext : candidateExt name = true)
    (hval : validateFileName name = .ok m)
    (hfresh : fileKey cfg bp name m ∉ acc.state.registeredRoutes) :
    ((processFile cfg name .fail bp acc).state.registeredRoutes
        = fileKey cfg bp name m :: acc.state.registeredRoutes ∧
      (processFile cfg name .fail bp acc).state.all = acc.state.all) ∧
    (∀ d mkeys, resolveExport cfg.strict d mkeys ≠ .silent →
      (∀ meta warned, resolveExport cfg.strict d mkeys ≠ .okRoute meta warned) →
      (processFile cfg name (.ok d mkeys) bp acc).state.registeredRoutes
          = fileKey cfg bp name m :: acc.state.registeredRoutes ∧
      (processFile cfg name (.ok d mkeys) bp acc).state.all = acc.state.all) ∧
    (∀ cfg3 f bp3 acc3, acc3.state.registeredRoutes
        ⊆ (scanDir cfg3 f bp3 acc3).state.registeredRoutes) ∧
    (∀ app3 jobs, app3.registeredRoutes ⊆ (runJobs app3 jobs).1.registeredRoutes) ∧
    (∀ cfg2 name2 load2 bp2 acc2 m2, candidateExt name2 = true →
      validateFileName name2 = .ok m2 →
      fileKey cfg2 bp2 name2 m2 = fileKey cfg bp name m →
      fileKey cfg bp name m ∈ acc2.state.registeredRoutes →
      processFile cfg2 name2 load2 bp2 acc2 =
        addDiags acc2 [.dupRouteErr name2 (fileKey cfg bp name m)]) := by
  have hpf : ∀ (load : ModuleLoad),
      processFile cfg name load bp acc =
        handleLoad cfg name m (routePathOf cfg.pfx bp (stripExt name) m)
          (fileKey cfg bp name m) load (withKey acc (fileKey cfg bp name m)) := by
    intro load
    simp only [fileKey] at hfresh ⊢
    simp [processFile, hext, hval, hfresh, fileKey]
  refine ⟨?_, ?_, scanDir_regs_mono, ?_, ?_⟩
  · rw [hpf .fail]
    constructor
    · rw [handleLoad_state_regs]
      rfl
    · rfl
  · intro d mkeys hns hno
    rw [hpf (.ok d mkeys)]
    constructor
    · rw [handleLoad_state_regs]
      rfl
    · show (handleOutcome cfg name m _ _ (resolveExport cfg.strict d mkeys) _).state.all = _
      cases hout : resolveExport cfg.strict d mkeys with
      | silent => exact absurd hout hns
      | okRoute meta warned => exact absurd hout (hno meta warned)
      | errFalsy => rfl
      | errStrict => rfl
      | errNamed => rfl
      | errObjNoHandler => rfl
      | errUnsupported => rfl
  · intro app3 jobs
    exact runJobs_regs_mono jobs app3
  · intro cfg2 name2 load2 bp2 acc2 m2 hext2 hval2 hkeq hdup2
    rw [← hkeq] at hdup2 ⊢
    exact processFile_dup cfg2 name2 load2 bp2 acc2 m2 hext2 hval2 hdup2

/-- Witness for C10 at a concrete failing file: the key GET /a is
consumed by a file whose import rejects, no route is registered, and a
later file with the same key is rejected as a duplicate. -/
theorem c10_failed_load_consumes_key_witness :
    (processFile ⟨"./c".data, [], false, true, none, none⟩ "get-a.ts".data
        .fail [] (initAcc emptyApp)).state.registeredRoutes = ["GET /a".data] ∧
    (processFile ⟨"./c".data, [], false, true, none, none⟩ "get-a.ts".data
        .fail [] (initAcc emptyApp)).state.all = [] ∧
    processFile ⟨"./c".data, [], false, true, none, none⟩ "get-a.js".data
        (.ok .func []) []
        (processFile ⟨"./c".data, [], false, true, none, none⟩ "get-a.ts".data
          .fail [] (initAcc emptyApp)) =
      addDiags (processFile ⟨"./c".data, [], false, true, none, none⟩ "get-a.ts".data
          .fail [] (initAcc emptyApp))
        [.dupRouteErr "get-a.js".data "GET /a".data] := by
  have h := c10_failed_load_consumes_key ⟨"./c".data, [], false, true, none, none⟩
    "get-a.ts".data [] (initAcc emptyApp) "get".data (by decide) (by decide) (by decide)
  have he : fileKey ⟨"./c".data, [], false, true, none, none⟩ [] "get-a.ts".data "get".data
      = "GET /a".data := by decide
  refine ⟨?_, ?_, ?_⟩
  · rw [← he]
    exact h.1.1.trans (by rw [he]; rfl)
  · exact h.1.2
  · have h5 := h.2.2.2.2 ⟨"./c".data, [], false, true, none, none⟩ "get-a.js".data
      (.ok .func []) [] (processFile ⟨"./c".data, [], false, true, none, none⟩
        "get-a.ts".data .fail [] (initAcc emptyApp)) "get".data
      (by decide) (by decide) (by decide) ?_
    · rw [he] at h5
      exact h5
    · rw [h.1.1, he]
      exact List.mem_cons_self _ _

lemma scanDir_appF (cfg : JobCfg) (a : FForest) : ∀ (b : FForest) (bp : Str) (acc : JobAcc),
    scanDir cfg (appF a b) bp acc = scanDir cfg b bp (scanDir cfg a bp acc) := by
  induction a with
  | nil => intro b bp acc; rfl
  | fileCons name load rest ih => intro b bp acc; exact ih b bp _
  | badStatCons name rest ih => intro b bp acc; exact ih b bp _
  | dirCons name children rest ihc ihr => intro b bp acc; exact ihr b bp _
  | badDirCons name children rest ihc ihr => intro b bp acc; exact ihr b bp _

/-- C9: per-entry fault isolation.  A failed stat, or an unreadable
subdirectory, only draws a warning and skips that entry or subtree while
every sibling before and after is still processed against the threaded
state; a failed root listing aborts only that job with an error, without
throwing, and leaves the remaining jobs' processing unchanged. -/
theorem c9_fault_isolation :
    (∀ cfg pre n post bp acc,
      scanDir cfg (appF pre (.badStatCons n post)) bp acc =
        scanDir cfg post bp (addDiags (scanDir cfg pre bp acc) [.statFailWarn n])) ∧
    (∀ cfg pre n cs post bp acc,
      scanDir cfg (appF pre (.badDirCons n cs post)) bp acc =
        scanDir cfg post bp (addDiags (scanDir cfg pre bp acc)
          (dirWarnDiags n ++ [.dirScanFailWarn n]))) ∧
    (∀ n, diagLevel (.statFailWarn n) = .warn) ∧
    (∀ n, diagLevel (.dirScanFailWarn n) = .warn) ∧
    (∀ app cfg, loadRoutes app ⟨cfg, none⟩ = (app, [.rootScanFailErr cfg.dir])) ∧
    (∀ d, diagLevel (.rootScanFailErr d) = .error) ∧
    (∀ app cfg jobs, runJobs app (⟨cfg, none⟩ :: jobs) =
      ((runJobs app jobs).1, .rootScanFailErr cfg.dir :: (runJobs app jobs).2)) := by
  refine ⟨?_, ?_, fun _ => rfl, fun _ => rfl, fun _ _ => rfl, fun _ => rfl, ?_⟩
  · intro cfg pre n post bp acc
    rw [scanDir_appF]
    rfl
  · intro cfg pre n cs post bp acc
    rw [scanDir_appF]
    rfl
  · intro app cfg jobs
    simp [runJobs, loadRoutes]

lemma processFile_conflicts_mono (cfg : JobCfg) (name : Str) (load : ModuleLoad)
    (bp : Str) (acc : JobAcc) {c : Str × Str × Str} (hc : c ∈ acc.conflicts) :
    c ∈ (processFile cfg name load bp acc).conflicts := by
  simp only [processFile]
  split
  · exact hc
  · split
    · exact hc
    · next m hval =>
      split
      · exact hc
      · cases load with
        | fail => exact hc
        | ok d mkeys =>
          show c ∈ (handleOutcome cfg name m _ _ (resolveExport cfg.strict d mkeys) _).conflicts
          cases resolveExport cfg.strict d mkeys with
          | okRoute meta warned => exact List.mem_append_left _ hc
          | silent => exact hc
          | errFalsy => exact hc
          | errStrict => exact hc
          | errNamed => exact hc
          | errObjNoHandler => exact hc
          | errUnsupported => exact hc

lemma scanDir_conflicts_mono (cfg : JobCfg) (f : FForest) :
    ∀ (bp : Str) (acc : JobAcc) (c : Str × Str × Str), c ∈ acc.conflicts →
      c ∈ (scanDir cfg f bp acc).conflicts := by
  induction f with
  | nil => intro bp acc c hc; exact hc
  | fileCons name load rest ih =>
    intro bp acc c hc
    exact ih bp _ c (processFile_conflicts_mono cfg name load bp acc hc)
  | badStatCons name rest ih => intro bp acc c hc; exact ih bp _ c hc
  | dirCons name children rest ihc ihr =>
    intro bp acc c hc
    exact ihr bp _ c (ihc _ _ c hc)
  | badDirCons name children rest ihc ihr => intro bp acc c hc; exact ihr bp _ c hc

/-- C7: a simultaneous forcePublic and forceProtected match is recorded
as a conflict regardless of explicit metadata; an explicit-metadata
override is attributed to the matched forceProtected pattern, or to the
matched forcePublic pattern only when no forceProtected pattern matched;
the recording flows into the job accumulator, survives the rest of the
scan, and each recorded conflict is emitted as a warning after the job. -/
theorem c7_conflict_and_override_diagnostics :
    (∀ routePath m pfx (fp ft : List Str) rm dflt pp tp,
      fp.find? (fun p => matchesFilter routePath m p pfx) = some pp →
      ft.find? (fun p => matchesFilter routePath m p pfx) = some tp →
      (resolveAuth routePath m pfx (some fp) (some ft) rm dflt).conflict
        = some (routePath, pp, tp)) ∧
    (∀ routePath m pfx fp ft rm dflt b tp,
      metaAuth rm = some b →
      findMatch ft routePath m pfx = some tp →
      (resolveAuth routePath m pfx fp ft rm dflt).overridden
        = some (routePath, tp, true)) ∧
    (∀ routePath m pfx fp ft rm dflt b pp,
      metaAuth rm = some b →
      findMatch ft routePath m pfx = none →
      findMatch fp routePath m pfx = some pp →
      (resolveAuth routePath m pfx fp ft rm dflt).overridden
        = some (routePath, pp, false)) ∧
    (∀ cfg name d mkeys bp acc m meta warned,
      candidateExt name = true → validateFileName name = .ok m →
      fileKey cfg bp name m ∉ acc.state.registeredRoutes →
      resolveExport cfg.strict d mkeys = .okRoute meta warned →
      (processFile cfg name (.ok d mkeys) bp acc).conflicts =
        acc.conflicts ++ (resolveAuth (routePathOf cfg.pfx bp (stripExt name) m) m
          cfg.pfx cfg.forcePublic cfg.forceProtected meta
          cfg.defaultRequiresAuth).conflict.toList) ∧
    (∀ cfg f bp acc c, c ∈ acc.conflicts → c ∈ (scanDir cfg f bp acc).conflicts) ∧
    (∀ app cfg f r pp tp,
      (r, pp, tp) ∈ (scanDir cfg f [] (initAcc app)).conflicts →
      Diag.conflictWarn r pp tp ∈ (loadRoutes app ⟨cfg, some f⟩).2 ∧
      diagLevel (.conflictWarn r pp tp) = .warn) := by
  refine ⟨?_, ?_, ?_, ?_, scanDir_conflicts_mono, ?_⟩
  · intro routePath m pfx fp ft rm dflt pp tp hp ht
    cases hm : metaAuth rm <;>
      simp [resolveAuth, findMatch, hp, ht, hm]
  · intro routePath m pfx fp ft rm dflt b tp hm ht
    simp [resolveAuth, ht, hm]
  · intro routePath m pfx fp ft rm dflt b pp hm ht hp
    simp [resolveAuth, ht, hp, hm]
  · intro cfg name d mkeys bp acc m meta warned hext hval hfresh hout
    simp only [fileKey] at hfresh
    simp [processFile, hext, hval, hfresh, handleLoad, hout, handleOutcome,
      registerRoute, withKey]
  · intro app cfg f r pp tp hmem
    refine ⟨?_, rfl⟩
    show Diag.conflictWarn r pp tp ∈ _ ++ postScanDiags cfg _
    apply List.mem_append_right
    apply List.mem_append_left
    apply List.mem_append_left
    apply List.mem_append_left
    exact List.mem_map.mpr ⟨(r, pp, tp), hmem, rfl⟩

/-- Witness for C7 at a concrete route matched by both pattern kinds and
carrying explicit metadata: the conflict is still recorded, the override
is attributed to the forceProtected pattern, and the conflict warning is
emitted after the job. -/
theorem c7_conflict_and_override_diagnostics_witness :
    (resolveAuth "/a".data "get".data [] (some ["/a".data]) (some ["/a".data])
        (some ⟨some true⟩) false).conflict
      = some ("/a".data, "/a".data, "/a".data) ∧
    (resolveAuth "/a".data "get".data [] (some ["/a".data]) (some ["/a".data])
        (some ⟨some true⟩) false).overridden
      = some ("/a".data, "/a".data, true) ∧
    Diag.conflictWarn "/a".data "/a".data "/a".data ∈
      (loadRoutes emptyApp ⟨⟨"./c".data, [], false, true, some ["/a".data],
        some ["/a".data]⟩,
        some (.fileCons "get-a.ts".data
          (.ok (.obj true true (some ⟨some true⟩)) []) .nil)⟩).2 := by
  have h := c7_conflict_and_override_diagnostics
  refine ⟨h.1 "/a".data "get".data [] ["/a".data] ["/a".data]
      (some ⟨some true⟩) false "/a".data "/a".data (by decide) (by decide),
    h.2.1 "/a".data "get".data [] (some ["/a".data]) (some ["/a".data])
      (some ⟨some true⟩) false true "/a".data (by decide) (by decide), ?_⟩
  exact (h.2.2.2.2.2 emptyApp ⟨"./c".data, [], false, true, some ["/a".data],
    some ["/a".data]⟩
    (.fileCons "get-a.ts".data (.ok (.obj true true (some ⟨some true⟩)) []) .nil)
    "/a".data "/a".data "/a".data (by decide)).1

/-- C6 counterexample: with prefixes /api and /v1 and the force pattern
/api/users, the same file registers under both prefixes but with
different requiresAuth outcomes (protected under /api, the default
public under /v1), refuting that the authorization outcome is the same
under every prefix. -/
theorem c6_prefix_auth_counterexample :
    (runConfigOn ⟨some "./c".data, .multiple ["/api".data, "/v1".data], some false,
        some true, none, some ["/api/users".data]⟩
      (some (.fileCons "get-users.ts".data (.ok .func [])  .nil)) emptyApp).1.all =
      [⟨"GET".data, "/api/users".data, true⟩, ⟨"GET".data, "/v1/users".data, false⟩] ∧
    ¬ (∀ r1 ∈ (runConfigOn ⟨some "./c".data, .multiple ["/api".data, "/v1".data],
          some false, some true, none, some ["/api/users".data]⟩
        (some (.fileCons "get-users.ts".data (.ok .func []) .nil)) emptyApp).1.all,
       ∀ r2 ∈ (runConfigOn ⟨some "./c".data, .multiple ["/api".data, "/v1".data],
          some false, some true, none, some ["/api/users".data]⟩
        (some (.fileCons "get-users.ts".data (.ok .func []) .nil)) emptyApp).1.all,
       r1.requiresAuth = r2.requiresAuth) := by
  decide

lemma resolveAuth_no_patterns (routePath m pfx : Str) (meta : Option RouteMeta)
    (dflt : Bool) :
    resolveAuth routePath m pfx none none meta dflt =
      ⟨(metaAuth meta).getD dflt, none, none, none, none⟩ := by
  cases hm : metaAuth meta <;> simp [resolveAuth, findMatch, hm]

lemma processFile_ok (cfg : JobCfg) (name : Str) (d : JSValue) (mkeys : List Str)
    (bp : Str) (acc : JobAcc) (m : Str) (meta : Option RouteMeta) (warned : Bool)
    (hext : candidateExt name = true) (hval : validateFileName name = .ok m)
    (hfresh : fileKey cfg bp name m ∉ acc.state.registeredRoutes)
    (hout : resolveExport cfg.strict d mkeys = .okRoute meta warned) :
    processFile cfg name (.ok d mkeys) bp acc =
      registerRoute cfg name m (routePathOf cfg.pfx bp (stripExt name) m)
        (fileKey cfg bp name m) meta warned
        (withKey acc (fileKey cfg bp name m)) := by
  simp only [fileKey] at hfresh ⊢
  simp [processFile, hext, hval, hfresh, handleLoad, hout, handleOutcome]

lemma expandConfig_fields (rc : RawConfig) : ∀ c ∈ expandConfig rc,
    c.strict = rc.strict.getD true ∧ c.forcePublic = rc.forcePublic ∧
    c.forceProtected = rc.forceProtected ∧
    c.defaultRequiresAuth = rc.defaultRequiresAuth.getD false := by
  intro c hc
  simp only [expandConfig, List.mem_map] at hc
  obtain ⟨p, -, rfl⟩ := hc
  exact ⟨rfl, rfl, rfl, rfl⟩

lemma runJobs_single_file (name : Str) (d : JSValue) (mkeys : List Str) (m : Str)
    (meta : Option RouteMeta) (warned : Bool) (s0 d0 : Bool)
    (hext : candidateExt name = true) (hval : validateFileName name = .ok m)
    (hout : resolveExport s0 d mkeys = .okRoute meta warned) :
    ∀ (cfgs : List JobCfg) (app : AppState),
    (∀ c ∈ cfgs, c.strict = s0 ∧ c.forcePublic = none ∧ c.forceProtected = none ∧
      c.defaultRequiresAuth = d0) →
    (cfgs.map (fun c => fileKey c [] name m)).Nodup →
    (∀ c ∈ cfgs, fileKey c [] name m ∉ app.registeredRoutes) →
    (runJobs app (cfgs.map
        (fun c => ⟨c, some (.fileCons name (.ok d mkeys) .nil)⟩))).1.all
      = app.all ++ cfgs.map (fun c =>
          ⟨toUpperStr m, routePathOf c.pfx [] (stripExt name) m,
            (metaAuth meta).getD d0⟩) := by
  intro cfgs
  induction cfgs with
  | nil => intro app _ _ _; simp [runJobs]
  | cons c cfgs' ih =>
    intro app hfields hnd hfresh
    obtain ⟨hs, hfp, hft, hd⟩ := hfields c (by simp)
    have hpf : processFile c name (.ok d mkeys) [] (initAcc app) =
        registerRoute c name m (routePathOf c.pfx [] (stripExt name) m)
          (fileKey c [] name m) meta warned
          (withKey (initAcc app) (fileKey c [] name m)) :=
      processFile_ok c name d mkeys [] (initAcc app) m meta warned hext hval
        (hfresh c (by simp)) (by rw [hs]; exact hout)
    have hstep : (loadRoutes app
        ⟨c, some (.fileCons name (.ok d mkeys) .nil)⟩).1 =
        (registerRoute c name m (routePathOf c.pfx [] (stripExt name) m)
          (fileKey c [] name m) meta warned
          (withKey (initAcc app) (fileKey c [] name m))).state := by
      show (scanDir c (.fileCons name (.ok d mkeys) .nil) [] (initAcc app)).state = _
      show (processFile c name (.ok d mkeys) [] (initAcc app)).state = _
      rw [hpf]
    have happ' : (loadRoutes app ⟨c, some (.fileCons name (.ok d mkeys) .nil)⟩).1.all
        = app.all ++ [⟨toUpperStr m, routePathOf c.pfx [] (stripExt name) m,
            (metaAuth meta).getD d0⟩] := by
      rw [hstep, registerRoute_state_all]
      rw [hfp, hft, hd, resolveAuth_no_patterns]
      rfl
    have hregs' : (loadRoutes app ⟨c, some (.fileCons name (.ok d mkeys) .nil)⟩).1.registeredRoutes
        = fileKey c [] name m :: app.registeredRoutes := by
      rw [hstep, registerRoute_state_regs]
      rfl
    show (runJobs (loadRoutes app ⟨c, some (.fileCons name (.ok d mkeys) .nil)⟩).1
        (cfgs'.map (fun c => ⟨c, some (.fileCons name (.ok d mkeys) .nil)⟩))).1.all = _
    rw [ih (loadRoutes app ⟨c, some (.fileCons name (.ok d mkeys) .nil)⟩).1
      (fun c' hc' => hfields c' (by simp [hc']))
      (by simpa using hnd.of_cons)
      ?_]
    · rw [happ']
      simp
    · intro c' hc'
      rw [hregs']
      intro hmem
      rcases List.mem_cons.mp hmem with heq | hmem'
      · have : fileKey c' [] name m ∈ cfgs'.map (fun x => fileKey x [] name m) :=
          List.mem_map.mpr ⟨c', hc', rfl⟩
        rw [heq] at this
        exact (List.nodup_cons.mp hnd).1 this
      · exact hfresh c' (by simp [hc']) hmem'

/-- C6 (amended): a configuration listing N prefixes for one directory
yields, for a qualifying file whose per-prefix route keys are distinct
and unregistered, one registration per prefix, differing only in the
prefix-derived path; when no forcePublic or forceProtected patterns are
configured, the requiresAuth outcome (explicit metadata, else the
configured default) is identical under every prefix. -/
theorem c6_prefix_expansion_amended (rc : RawConfig) (name : Str) (d : JSValue)
    (mkeys : List Str) (m : Str) (meta : Option RouteMeta) (warned : Bool)
    (app : AppState)
    (hfp : rc.forcePublic = none) (hft : rc.forceProtected = none)
    (hext : candidateExt name = true) (hval : validateFileName name = .ok m)
    (hout : resolveExport (rc.strict.getD true) d mkeys = .okRoute meta warned)
    (hkeys : ((expandConfig rc).map (fun c => fileKey c [] name m)).Nodup)
    (hfresh : ∀ c ∈ expandConfig rc, fileKey c [] name m ∉ app.registeredRoutes) :
    (runConfigOn rc (some (.fileCons name (.ok d mkeys) .nil)) app).1.all =
      app.all ++ (expandConfig rc).map (fun c =>
        ⟨toUpperStr m, routePathOf c.pfx [] (stripExt name) m,
          (metaAuth meta).getD (rc.defaultRequiresAuth.getD false)⟩) := by
  unfold runConfigOn
  exact runJobs_single_file name d mkeys m meta warned (rc.strict.getD true)
    (rc.defaultRequiresAuth.getD false) hext hval hout (expandConfig rc) app
    (fun c hc => by
      obtain ⟨h1, h2, h3, h4⟩ := expandConfig_fields rc c hc
      exact ⟨h1, h2.trans hfp, h3.trans hft, h4⟩)
    hkeys hfresh

/-- Witness for C6 (amended) at two concrete prefixes: the same file
registers under /api and /v1 with identical (default) authorization. -/
theorem c6_prefix_expansion_amended_witness :
    (runConfigOn ⟨some "./c".data, .multiple ["/api".data, "/v1".data], some false,
        some true, none, none⟩
      (some (.fileCons "get-users.ts".data (.ok .func []) .nil)) emptyApp).1.all =
      [⟨"GET".data, "/api/users".data, false⟩, ⟨"GET".data, "/v1/users".data, false⟩] := by
  have h := c6_prefix_expansion_amended
    ⟨some "./c".data, .multiple ["/api".data, "/v1".data], some false, some true,
      none, none⟩
    "get-users.ts".data .func [] "get".data none false emptyApp
    rfl rfl (by decide) (by decide) (by decide) (by decide)
    (by intro c hc; simp [emptyApp])
  rw [h]
  decide

/-- C8 counterexample: with forcePublic patterns /x/* and /x/y, the route
GET /x/y is registered and the pattern /x/y matches it, yet the job still
emits an unused-pattern warning for /x/y, because only the first matching
pattern (/x/*, selected by find) is marked used. -/
theorem c8_unused_warning_counterexample :
    matchesFilter "/x/y".data "get".data "/x/y".data [] = true ∧
    (⟨"GET".data, "/x/y".data, false⟩ : RouteInfo) ∈
      (loadRoutes emptyApp ⟨⟨"./c".data, [], false, true,
        some ["/x/*".data, "/x/y".data], none⟩,
        some (.dirCons "x".data (.fileCons "get-y.ts".data (.ok .func []) .nil) .nil)⟩).1.all ∧
    Diag.unusedPatternWarn false "/x/y".data ∈
      (loadRoutes emptyApp ⟨⟨"./c".data, [], false, true,
        some ["/x/*".data, "/x/y".data], none⟩,
        some (.dirCons "x".data (.fileCons "get-y.ts".data (.ok .func []) .nil) .nil)⟩).2 := by
  decide

lemma toUpperStr_idem_methods : ∀ m ∈ methods, toUpperStr (toUpperStr m) = toUpperStr m := by
  decide

lemma matchesFilter_upper_method {m : Str} (hm : m ∈ methods)
    (routePath pat pfx : Str) :
    matchesFilter routePath (toUpperStr m) pat pfx
      = matchesFilter routePath m pat pfx := by
  simp only [matchesFilter, toUpperStr_idem_methods m hm]

lemma findMatch_upper {m : Str} (hm : m ∈ methods) (pats : Option (List Str))
    (routePath pfx : Str) :
    findMatch pats routePath (toUpperStr m) pfx = findMatch pats routePath m pfx := by
  cases pats with
  | none => rfl
  | some l =>
    show l.find? _ = l.find? _
    congr 1
    funext p
    exact matchesFilter_upper_method hm routePath p pfx

lemma validateFileName_mem {name m : Str} (h : validateFileName name = .ok m) :
    m ∈ methods := by
  simp only [validateFileName] at h
  split at h
  · next hin =>
    cases h
    exact hin
  · split at h
    · cases h
    · next m' hfind =>
      split at h
      · cases h
      · cases h
        exact List.mem_of_find?_eq_some hfind

lemma resolveAuth_usedPub (routePath m pfx : Str) (fp ft : Option (List Str))
    (rm : Option RouteMeta) (dflt : Bool) :
    (resolveAuth routePath m pfx fp ft rm dflt).usedPub
      = findMatch fp routePath m pfx := by
  cases hm : metaAuth rm <;> simp [resolveAuth, hm]

lemma resolveAuth_usedProt (routePath m pfx : Str) (fp ft : Option (List Str))
    (rm : Option RouteMeta) (dflt : Bool) :
    (resolveAuth routePath m pfx fp ft rm dflt).usedProt
      = findMatch ft routePath m pfx := by
  cases hm : metaAuth rm <;> simp [resolveAuth, hm]

lemma mem_addUnique (p q : Str) (l : List Str) :
    p ∈ addUnique q l ↔ p ∈ l ∨ p = q := by
  unfold addUnique
  split
  · next hq =>
    constructor
    · exact fun h => Or.inl h
    · rintro (h | rfl)
      · exact h
      · exact hq
  · simp [List.mem_append]

lemma registerRoute_matchedPub (cfg : JobCfg) (name m routePath key : Str)
    (meta : Option RouteMeta) (warned : Bool) (acc1 : JobAcc) :
    (registerRoute cfg name m routePath key meta warned acc1).matchedPub =
      (match (resolveAuth routePath m cfg.pfx cfg.forcePublic cfg.forceProtected meta
          cfg.defaultRequiresAuth).usedPub with
        | some p => addUnique p acc1.matchedPub
        | none => acc1.matchedPub) := rfl

lemma registerRoute_matchedProt (cfg : JobCfg) (name m routePath key : Str)
    (meta : Option RouteMeta) (warned : Bool) (acc1 : JobAcc) :
    (registerRoute cfg name m routePath key meta warned acc1).matchedProt =
      (match (resolveAuth routePath m cfg.pfx cfg.forcePublic cfg.forceProtected meta
          cfg.defaultRequiresAuth).usedProt with
        | some p => addUnique p acc1.matchedProt
        | none => acc1.matchedProt) := rfl

lemma registerRoute_matched (cfg : JobCfg) (name m routePath key : Str)
    (hm : m ∈ methods) (meta : Option RouteMeta) (warned : Bool) (acc1 : JobAcc) :
    ∃ new, (registerRoute cfg name m routePath key meta warned acc1).state.all
        = acc1.state.all ++ new ∧
      (∀ p, p ∈ (registerRoute cfg name m routePath key meta warned acc1).matchedPub ↔
        p ∈ acc1.matchedPub ∨ ∃ r ∈ new, firstPubOf cfg r = some p) ∧
      (∀ p, p ∈ (registerRoute cfg name m routePath key meta warned acc1).matchedProt ↔
        p ∈ acc1.matchedProt ∨ ∃ r ∈ new, firstProtOf cfg r = some p) := by
  refine ⟨[⟨toUpperStr m, routePath,
    (resolveAuth routePath m cfg.pfx cfg.forcePublic cfg.forceProtected meta
      cfg.defaultRequiresAuth).requiresAuth⟩],
    registerRoute_state_all cfg name m routePath key meta warned acc1, ?_, ?_⟩
  · intro p
    have hstep : (registerRoute cfg name m routePath key meta warned acc1).matchedPub =
        (match findMatch cfg.forcePublic routePath m cfg.pfx with
          | some q => addUnique q acc1.matchedPub
          | none => acc1.matchedPub) := by
      rw [registerRoute_matchedPub, resolveAuth_usedPub]
    have hfp : firstPubOf cfg ⟨toUpperStr m, routePath,
        (resolveAuth routePath m cfg.pfx cfg.forcePublic cfg.forceProtected meta
          cfg.defaultRequiresAuth).requiresAuth⟩
        = findMatch cfg.forcePublic routePath m cfg.pfx := by
      unfold firstPubOf
      exact findMatch_upper hm cfg.forcePublic routePath cfg.pfx
    cases hfind : findMatch cfg.forcePublic routePath m cfg.pfx with
    | none =>
      rw [hstep, hfind]
      simp [hfp, hfind]
    | some q =>
      rw [hstep, hfind]
      simp only [mem_addUnique]
      simp [hfp, hfind, eq_comm]
  · intro p
    have hstep : (registerRoute cfg name m routePath key meta warned acc1).matchedProt =
        (match findMatch cfg.forceProtected routePath m cfg.pfx with
          | some q => addUnique q acc1.matchedProt
          | none => acc1.matchedProt) := by
      rw [registerRoute_matchedProt, resolveAuth_usedProt]
    have hfp : firstProtOf cfg ⟨toUpperStr m, routePath,
        (resolveAuth routePath m cfg.pfx cfg.forcePublic cfg.forceProtected meta
          cfg.defaultRequiresAuth).requiresAuth⟩
        = findMatch cfg.forceProtected routePath m cfg.pfx := by
      unfold firstProtOf
      exact findMatch_upper hm cfg.forceProtected routePath cfg.pfx
    cases hfind : findMatch cfg.forceProtected routePath m cfg.pfx with
    | none =>
      rw [hstep, hfind]
      simp [hfp, hfind]
    | some q =>
      rw [hstep, hfind]
      simp only [mem_addUnique]
      simp [hfp, hfind, eq_comm]

lemma processFile_matched (cfg : JobCfg) (name : Str) (load : ModuleLoad) (bp : Str)
    (acc : JobAcc) :
    ∃ new, (processFile cfg name load bp acc).state.all = acc.state.all ++ new ∧
      (∀ p, p ∈ (processFile cfg name load bp acc).matchedPub ↔
        p ∈ acc.matchedPub ∨ ∃ r ∈ new, firstPubOf cfg r = some p) ∧
      (∀ p, p ∈ (processFile cfg name load bp acc).matchedProt ↔
        p ∈ acc.matchedProt ∨ ∃ r ∈ new, firstProtOf cfg r = some p) := by
  simp only [processFile]
  split
  · exact ⟨[], by simp, by simp, by simp⟩
  · split
    · exact ⟨[], by simp [addDiags], by simp [addDiags], by simp [addDiags]⟩
    · next m hval =>
      split
      · exact ⟨[], by simp [addDiags], by simp [addDiags], by simp [addDiags]⟩
      · next hkey =>
        cases load with
        | fail => exact ⟨[], by simp [handleLoad, addDiags, withKey],
            by simp [handleLoad, addDiags, withKey], by simp [handleLoad, addDiags, withKey]⟩
        | ok d mkeys =>
          cases hout : resolveExport cfg.strict d mkeys with
          | silent => exact ⟨[], by simp [handleLoad, hout, handleOutcome, addDiags, withKey],
              by simp [handleLoad, hout, handleOutcome, addDiags, withKey],
              by simp [handleLoad, hout, handleOutcome, addDiags, withKey]⟩
          | errFalsy => exact ⟨[], by simp [handleLoad, hout, handleOutcome, addDiags, withKey],
              by simp [handleLoad, hout, handleOutcome, addDiags, withKey],
              by simp [handleLoad, hout, handleOutcome, addDiags, withKey]⟩
          | errStrict => exact ⟨[], by simp [handleLoad, hout, handleOutcome, addDiags, withKey],
              by simp [handleLoad, hout, handleOutcome, addDiags, withKey],
              by simp [handleLoad, hout, handleOutcome, addDiags, withKey]⟩
          | errNamed => exact ⟨[], by simp [handleLoad, hout, handleOutcome, addDiags, withKey],
              by simp [handleLoad, hout, handleOutcome, addDiags, withKey],
              by simp [handleLoad, hout, handleOutcome, addDiags, withKey]⟩
          | errObjNoHandler => exact ⟨[], by simp [handleLoad, hout, handleOutcome, addDiags, withKey],
              by simp [handleLoad, hout, handleOutcome, addDiags, withKey],
              by simp [handleLoad, hout, handleOutcome, addDiags, withKey]⟩
          | errUnsupported => exact ⟨[], by simp [handleLoad, hout, handleOutcome, addDiags, withKey],
              by simp [handleLoad, hout, handleOutcome, addDiags, withKey],
              by simp [handleLoad, hout, handleOutcome, addDiags, withKey]⟩
          | okRoute meta warned =>
            have heq : handleLoad cfg name m (routePathOf cfg.pfx bp (stripExt name) m)
                (routeKeyOf m (routePathOf cfg.pfx bp (stripExt name) m)) (.ok d mkeys)
                (withKey acc (routeKeyOf m (routePathOf cfg.pfx bp (stripExt name) m)))
                = registerRoute cfg name m (routePathOf cfg.pfx bp (stripExt name) m)
                  (routeKeyOf m (routePathOf cfg.pfx bp (stripExt name) m)) meta warned
                  (withKey acc (routeKeyOf m (routePathOf cfg.pfx bp (stripExt name) m))) := by
              simp [handleLoad, hout, handleOutcome]
            simp only [heq]
            exact registerRoute_matched cfg name m _ _ (validateFileName_mem hval)
              meta warned _

lemma or_exists_append {α : Type} {P : α → Prop} {A : Prop} (n1 n2 : List α) :
    ((A ∨ ∃ r ∈ n1, P r) ∨ ∃ r ∈ n2, P r) ↔ (A ∨ ∃ r ∈ n1 ++ n2, P r) := by
  constructor
  · rintro ((hp | ⟨r, hr, hpr⟩) | ⟨r, hr, hpr⟩)
    · exact Or.inl hp
    · exact Or.inr ⟨r, List.mem_append_left _ hr, hpr⟩
    · exact Or.inr ⟨r, List.mem_append_right _ hr, hpr⟩
  · rintro (hp | ⟨r, hr, hpr⟩)
    · exact Or.inl (Or.inl hp)
    · rcases List.mem_append.mp hr with h' | h'
      · exact Or.inl (Or.inr ⟨r, h', hpr⟩)
      · exact Or.inr ⟨r, h', hpr⟩

lemma scanDir_matched (cfg : JobCfg) (f : FForest) : ∀ (bp : Str) (acc : JobAcc),
    ∃ new, (scanDir cfg f bp acc).state.all = acc.state.all ++ new ∧
      (∀ p, p ∈ (scanDir cfg f bp acc).matchedPub ↔
        p ∈ acc.matchedPub ∨ ∃ r ∈ new, firstPubOf cfg r = some p) ∧
      (∀ p, p ∈ (scanDir cfg f bp acc).matchedProt ↔
        p ∈ acc.matchedProt ∨ ∃ r ∈ new, firstProtOf cfg r = some p) := by
  induction f with
  | nil => intro bp acc; exact ⟨[], by simp [scanDir], by simp [scanDir], by simp [scanDir]⟩
  | fileCons name load rest ih =>
    intro bp acc
    simp only [scanDir]
    obtain ⟨n1, e1, h1, h1'⟩ := processFile_matched cfg name load bp acc
    obtain ⟨n2, e2, h2, h2'⟩ := ih bp (processFile cfg name load bp acc)
    refine ⟨n1 ++ n2, ?_, ?_, ?_⟩
    · rw [e2, e1, List.append_assoc]
    · intro p
      rw [h2 p, h1 p]
      exact or_exists_append n1 n2
    · intro p
      rw [h2' p, h1' p]
      exact or_exists_append n1 n2
  | badStatCons name rest ih =>
    intro bp acc
    simp only [scanDir]
    exact ih bp (addDiags acc [.statFailWarn name])
  | dirCons name children rest ihc ihr =>
    intro bp acc
    simp only [scanDir]
    obtain ⟨n1, e1, h1, h1'⟩ := ihc (childBase bp name) (addDiags acc (dirWarnDiags name))
    obtain ⟨n2, e2, h2, h2'⟩ := ihr bp
      (scanDir cfg children (childBase bp name) (addDiags acc (dirWarnDiags name)))
    refine ⟨n1 ++ n2, ?_, ?_, ?_⟩
    · rw [e2, e1, List.append_assoc]
      rfl
    · intro p
      rw [h2 p, h1 p]
      exact or_exists_append n1 n2
    · intro p
      rw [h2' p, h1' p]
      exact or_exists_append n1 n2
  | badDirCons name children rest ihc ihr =>
    intro bp acc
    simp only [scanDir]
    exact ihr bp (addDiags acc (dirWarnDiags name ++ [.dirScanFailWarn name]))

lemma processFile_diags (cfg : JobCfg) (name : Str) (load : ModuleLoad) (bp : Str)
    (acc : JobAcc) :
    ∃ ds, (processFile cfg name load bp acc).diags = acc.diags ++ ds ∧
      ∀ b q, Diag.unusedPatternWarn b q ∉ ds := by
  simp only [processFile]
  split
  · exact ⟨[], by simp, by simp⟩
  · split
    · next e heq =>
      exact ⟨[.invalidNameErr name e], rfl, by intro b q hq; simp at hq⟩
    · next m hval =>
      split
      · exact ⟨[.dupRouteErr name (routeKeyOf m (routePathOf cfg.pfx bp (stripExt name) m))],
          rfl, by intro b q hq; simp at hq⟩
      · next hkey =>
        cases load with
        | fail => exact ⟨[.importFailErr name], rfl, by intro b q hq; simp at hq⟩
        | ok d mkeys =>
          show ∃ ds, (handleOutcome cfg name m _ _
            (resolveExport cfg.strict d mkeys) _).diags = _ ∧ _
          cases resolveExport cfg.strict d mkeys with
          | silent => exact ⟨[], by simp [handleOutcome, withKey, addDiags], by simp⟩
          | errFalsy => exact ⟨[.falsyExportErr name], rfl, by intro b q hq; simp at hq⟩
          | errStrict => exact ⟨[.strictModeErr name], rfl, by intro b q hq; simp at hq⟩
          | errNamed => exact ⟨[.namedExportsErr name], rfl, by intro b q hq; simp at hq⟩
          | errObjNoHandler => exact ⟨[.objectNoHandlerErr name], rfl, by intro b q hq; simp at hq⟩
          | errUnsupported => exact ⟨[.unsupportedExportErr name], rfl, by intro b q hq; simp at hq⟩
          | okRoute meta warned =>
            refine ⟨(if warned then [Diag.nonStrictWarn name] else []) ++
              [Diag.registeredInfo (routeKeyOf m (routePathOf cfg.pfx bp (stripExt name) m))
                (resolveAuth (routePathOf cfg.pfx bp (stripExt name) m) m cfg.pfx
                  cfg.forcePublic cfg.forceProtected meta cfg.defaultRequiresAuth).requiresAuth],
              ?_, ?_⟩
            · show (registerRoute cfg name m _ _ meta warned _).diags = _
              simp [registerRoute, withKey, addUnique]
            · intro b q hq
              rcases List.mem_append.mp hq with h' | h'
              · split at h' <;> simp at h'
              · simp at h'

lemma scanDir_diags (cfg : JobCfg) (f : FForest) : ∀ (bp : Str) (acc : JobAcc),
    ∃ ds, (scanDir cfg f bp acc).diags = acc.diags ++ ds ∧
      ∀ b q, Diag.unusedPatternWarn b q ∉ ds := by
  induction f with
  | nil => intro bp acc; exact ⟨[], by simp [scanDir], by simp⟩
  | fileCons name load rest ih =>
    intro bp acc
    simp only [scanDir]
    obtain ⟨d1, e1, h1⟩ := processFile_diags cfg name load bp acc
    obtain ⟨d2, e2, h2⟩ := ih bp (processFile cfg name load bp acc)
    refine ⟨d1 ++ d2, by rw [e2, e1, List.append_assoc], ?_⟩
    intro b q hq
    rcases List.mem_append.mp hq with h' | h'
    · exact h1 b q h'
    · exact h2 b q h'
  | badStatCons name rest ih =>
    intro bp acc
    simp only [scanDir]
    obtain ⟨d2, e2, h2⟩ := ih bp (addDiags acc [.statFailWarn name])
    refine ⟨[.statFailWarn name] ++ d2, ?_, ?_⟩
    · rw [e2]
      simp [addDiags]
    · intro b q hq
      rcases List.mem_append.mp hq with h' | h'
      · simp at h'
      · exact h2 b q h'
  | dirCons name children rest ihc ihr =>
    intro bp acc
    simp only [scanDir]
    obtain ⟨d1, e1, h1⟩ := ihc (childBase bp name) (addDiags acc (dirWarnDiags name))
    obtain ⟨d2, e2, h2⟩ := ihr bp
      (scanDir cfg children (childBase bp name) (addDiags acc (dirWarnDiags name)))
    refine ⟨dirWarnDiags name ++ d1 ++ d2, ?_, ?_⟩
    · rw [e2, e1]
      simp [addDiags]
    · intro b q hq
      rcases List.mem_append.mp hq with h' | h'
      · rcases List.mem_append.mp h' with h'' | h''
        · unfold dirWarnDiags at h''
          split at h'' <;> simp at h''
        · exact h1 b q h''
      · exact h2 b q h'
  | badDirCons name children rest ihc ihr =>
    intro bp acc
    simp only [scanDir]
    obtain ⟨d2, e2, h2⟩ := ihr bp (addDiags acc (dirWarnDiags name ++ [.dirScanFailWarn name]))
    refine ⟨(dirWarnDiags name ++ [.dirScanFailWarn name]) ++ d2, ?_, ?_⟩
    · rw [e2]
      simp [addDiags]
    · intro b q hq
      rcases List.mem_append.mp hq with h' | h'
      · rcases List.mem_append.mp h' with h'' | h''
        · unfold dirWarnDiags at h''
          split at h'' <;> simp at h''
        · simp at h''
      · exact h2 b q h'

lemma count_unused_conflicts (cs : List (Str × Str × Str)) (b : Bool) (q : Str) :
    ((cs.map (fun c => Diag.conflictWarn c.1 c.2.1 c.2.2)).count
      (Diag.unusedPatternWarn b q)) = 0 := by
  rw [List.count_eq_zero]
  intro hmem
  obtain ⟨c, -, heq⟩ := List.mem_map.mp hmem
  cases heq

lemma count_unused_overridden (os : List (Str × Str × Bool)) (b : Bool) (q : Str) :
    ((os.map (fun o => Diag.overriddenWarn o.1 o.2.1 o.2.2)).count
      (Diag.unusedPatternWarn b q)) = 0 := by
  rw [List.count_eq_zero]
  intro hmem
  obtain ⟨o, -, heq⟩ := List.mem_map.mp hmem
  cases heq

lemma count_unused_map_ne (l : List Str) (b b' : Bool) (q : Str) (hb : b' ≠ b) :
    ((l.map (fun x => Diag.unusedPatternWarn b' x)).count
      (Diag.unusedPatternWarn b q)) = 0 := by
  rw [List.count_eq_zero]
  intro hmem
  obtain ⟨x, -, heq⟩ := List.mem_map.mp hmem
  injection heq with hbb hxx
  exact hb hbb

lemma count_map_unused (l : List Str) (b : Bool) (p : Str) :
    ((l.map (fun x => Diag.unusedPatternWarn b x)).count (Diag.unusedPatternWarn b p))
      = l.count p := by
  induction l with
  | nil => rfl
  | cons x xs ih =>
    simp only [List.map_cons, List.count_cons, ih]
    by_cases hxp : x = p
    · simp [hxp]
    · simp [hxp]

lemma count_eq_one_nodup {l : List Str} {p : Str} (hnd : l.Nodup) (hp : p ∈ l) :
    l.count p = 1 := by
  induction l with
  | nil => cases hp
  | cons x xs ih =>
    rcases List.mem_cons.mp hp with rfl | hp'
    · rw [List.count_cons_self, List.count_eq_zero.mpr (List.nodup_cons.mp hnd).1]
    · rw [List.count_cons_of_ne ?_ , ih (List.nodup_cons.mp hnd).2 hp']
      intro h
      subst h
      exact (List.nodup_cons.mp hnd).1 hp'

lemma count_unused_map_filter (l : List Str) (matched : List Str) (b : Bool)
    (p : Str) (hnd : l.Nodup) (hp : p ∈ l) :
    (((l.filter (fun x => decide (x ∉ matched))).map
        (fun x => Diag.unusedPatternWarn b x)).count (Diag.unusedPatternWarn b p))
      = if p ∈ matched then 0 else 1 := by
  rw [count_map_unused]
  by_cases hpm : p ∈ matched
  · rw [if_pos hpm, List.count_eq_zero]
    intro hmem
    have hmf := List.mem_filter.mp hmem
    simp at hmf
    exact hmf.2 hpm
  · rw [if_neg hpm, List.count_filter (by exact decide_eq_true hpm)]
    exact count_eq_one_nodup hnd hp

/-- C8 (amended): after a job settles, the unused-pattern warning for a
configured pattern is emitted exactly when that pattern was never
selected, via find, as the first matching pattern of any route registered
in the job (and then exactly once, for a duplicate-free configuration);
a pattern that matches a route without ever being its first configured
match is still warned as unused. -/
theorem c8_unused_pattern_warnings_amended (app : AppState) (cfg : JobCfg)
    (f : FForest) :
    (∀ l p, cfg.forcePublic = some l → l.Nodup → p ∈ l →
      ∃ new, (scanDir cfg f [] (initAcc app)).state.all = app.all ++ new ∧
        ((p ∈ (scanDir cfg f [] (initAcc app)).matchedPub) ↔
          ∃ r ∈ new, firstPubOf cfg r = some p) ∧
        (loadRoutes app ⟨cfg, some f⟩).2.count (.unusedPatternWarn false p)
          = (if p ∈ (scanDir cfg f [] (initAcc app)).matchedPub then 0 else 1)) ∧
    (∀ l p, cfg.forceProtected = some l → l.Nodup → p ∈ l →
      ∃ new, (scanDir cfg f [] (initAcc app)).state.all = app.all ++ new ∧
        ((p ∈ (scanDir cfg f [] (initAcc app)).matchedProt) ↔
          ∃ r ∈ new, firstProtOf cfg r = some p) ∧
        (loadRoutes app ⟨cfg, some f⟩).2.count (.unusedPatternWarn true p)
          = (if p ∈ (scanDir cfg f [] (initAcc app)).matchedProt then 0 else 1)) := by
  obtain ⟨new, hall, hpub, hprot⟩ := scanDir_matched cfg f [] (initAcc app)
  obtain ⟨ds, hds, hnu⟩ := scanDir_diags cfg f [] (initAcc app)
  have hdcount : ∀ b q, (scanDir cfg f [] (initAcc app)).diags.count
      (Diag.unusedPatternWarn b q) = 0 := by
    intro b q
    rw [hds]
    show List.count _ ([] ++ ds) = 0
    rw [List.nil_append, List.count_eq_zero]
    exact hnu b q
  have hout : (loadRoutes app ⟨cfg, some f⟩).2 =
      (scanDir cfg f [] (initAcc app)).diags ++
        postScanDiags cfg (scanDir cfg f [] (initAcc app)) := rfl
  constructor
  · intro l p hl hnd hp
    refine ⟨new, hall, ?_, ?_⟩
    · have := hpub p
      simpa [initAcc] using this
    · rw [hout, List.count_append, hdcount]
      unfold postScanDiags
      rw [hl]
      rw [List.count_append, List.count_append, List.count_append]
      rw [count_unused_conflicts, count_unused_overridden]
      rw [count_unused_map_filter l _ false p hnd hp]
      have hzero : (match cfg.forceProtected with
          | none => ([] : List Diag)
          | some lt => (lt.filter (fun q => decide (q ∉ (scanDir cfg f []
              (initAcc app)).matchedProt))).map
              (fun q => Diag.unusedPatternWarn true q)).count
          (Diag.unusedPatternWarn false p) = 0 := by
        cases cfg.forceProtected with
        | none => rfl
        | some lt =>
          show ((lt.filter _).map _).count _ = 0
          exact count_unused_map_ne _ false true p (by decide)
      rw [hzero]
      omega
  · intro l p hl hnd hp
    refine ⟨new, hall, ?_, ?_⟩
    · have := hprot p
      simpa [initAcc] using this
    · rw [hout, List.count_append, hdcount]
      unfold postScanDiags
      rw [hl]
      rw [List.count_append, List.count_append, List.count_append]
      rw [count_unused_conflicts, count_unused_overridden]
      rw [count_unused_map_filter l _ true p hnd hp]
      have hzero : (match cfg.forcePublic with
          | none => ([] : List Diag)
          | some lp => (lp.filter (fun q => decide (q ∉ (scanDir cfg f []
              (initAcc app)).matchedPub))).map
              (fun q => Diag.unusedPatternWarn false q)).count
          (Diag.unusedPatternWarn true p) = 0 := by
        cases cfg.forcePublic with
        | none => rfl
        | some lp =>
          show ((lp.filter _).map _).count _ = 0
          exact count_unused_map_ne _ true false p (by decide)
      rw [hzero]
      omega

/-- Witness for C8 (amended) at the counterexample configuration: the
pattern /x/y, although matching the registered route, is not the first
match of any route, so exactly one unused warning is emitted for it. -/
theorem c8_unused_pattern_warnings_amended_witness :
    (loadRoutes emptyApp ⟨⟨"./c".data, [], false, true,
        some ["/x/*".data, "/x/y".data], none⟩,
        some (.dirCons "x".data (.fileCons "get-y.ts".data (.ok .func []) .nil)
          .nil)⟩).2.count (.unusedPatternWarn false "/x/y".data) = 1 := by
  have h := (c8_unused_pattern_warnings_amended emptyApp
    ⟨"./c".data, [], false, true, some ["/x/*".data, "/x/y".data], none⟩
    (.dirCons "x".data (.fileCons "get-y.ts".data (.ok .func []) .nil) .nil)).1
    ["/x/*".data, "/x/y".data] "/x/y".data rfl (by decide) (by decide)
  obtain ⟨new, -, -, hcount⟩ := h
  rw [hcount]
  decide

end AutoRouter
